import Mathlib

/-!
# Verification of the CodeReview core against its specification

This file shallowly embeds the parts of the CodeReview repository that the
frozen claims are about:

* the LangGraph workflow registered by `AgentCore._build_workflow` together
  with a Pregel-style superstep executor modelling `CompiledStateGraph.ainvoke`
  (`final_deliverables/code_review_core/agent/core.py`);
* the LSP client's framing layer, reader loop, pending-request logic,
  diagnostics cache lookup and message handling
  (`scripts/code_review_core/agent/lsp/lsp_client.py`);
* the LSP `Diagnostic` data type with its wire decoding and user-facing
  rendering (`scripts/code_review_core/agent/lsp/lsp_types.py`);
* the server lifecycle manager and the diagnostic tool driving it
  (`final_deliverables/code_review_core/agent/lsp/server_manager.py` and
  `diagnostic_tool_final.py`).

Python strings are modelled as `List Char`; where the code manipulates byte
streams every transported character is ASCII (proved below for the JSON
encoder output), so one `Char` stands for one byte.  Python exceptions are
modelled with `Except PyExc`.  `asyncio` concurrency is flattened into
explicit state passing: the reader loop, futures and timers are represented
by pure functions over an explicit stream/state, with the points of
nondeterminism (chunk arrival, response arrival time, subprocess behaviour)
exposed as parameters.
-/

set_option maxHeartbeats 1000000
set_option linter.unusedVariables false

abbrev PyStr := List Char

def pys (s : String) : PyStr := s.data

/-- Python exceptions relevant to the embedded code. -/
inductive PyExc where
  | valueError
  | typeError
  | keyError
  | fileNotFoundError
  | timeoutError
  | jsonDecodeError
  | recursionError
  | processError
  deriving DecidableEq, Repr

/-! ## Characters and digits -/

/-- The `\x7b` character (opening curly bracket). -/
def lcurl : Char := Char.ofNat 123

/-- The `\x7d` character (closing curly bracket). -/
def rcurl : Char := Char.ofNat 125

def bslash : Char := '\\'

def dquote : Char := '"'

def isDigitCh (c : Char) : Bool := 48 ≤ c.toNat && c.toNat ≤ 57

def digitCh (n : Nat) : Char := Char.ofNat (48 + n)

/-- Decimal digits, most significant first (fuelled so that it reduces
definitionally; `n` such steps always suffice since the argument at least
halves each time). -/
def natDigitsAux : Nat → Nat → List Char
  | 0, _ => []
  | fuel + 1, n =>
    if n < 10 then [digitCh n]
    else natDigitsAux fuel (n / 10) ++ [digitCh (n % 10)]

/-- `repr` of a natural number, as Python renders `int`. -/
def natToChars (n : Nat) : List Char := natDigitsAux (n + 1) n

/-- `repr` of an integer, as Python renders `int`. -/
def intToChars : Int → List Char
  | .ofNat n => natToChars n
  | .negSucc n => '-' :: natToChars (n + 1)

def digitVal (c : Char) : Nat := c.toNat - 48

/-- Value of a digit string (most significant first). -/
def digitsVal (ds : List Char) : Nat := ds.foldl (fun a c => a * 10 + digitVal c) 0

/-- `List.span isDigitCh`: maximal digit prefix and the remainder. -/
def takeDigits : List Char → List Char × List Char
  | [] => ([], [])
  | c :: cs =>
    if isDigitCh c then
      let r := takeDigits cs
      (c :: r.1, r.2)
    else ([], c :: cs)

/-! ## JSON values

Model of the JSON-serialisable Python dictionaries exchanged with the
language server.  `json.dumps` produces `float` output only for Python
floats, which the embedded messages never contain, so numbers are modelled
as integers. -/

inductive Json where
  | null
  | bool (b : Bool)
  | int (n : Int)
  | str (s : PyStr)
  | arr (elems : List Json)
  | obj (fields : List (PyStr × Json))

mutual
/-- Structural boolean equality on JSON values. -/
def jeq : Json → Json → Bool
  | .null, .null => true
  | .bool a, .bool b => a == b
  | .int a, .int b => a == b
  | .str a, .str b => a == b
  | .arr a, .arr b => jeqList a b
  | .obj a, .obj b => jeqFields a b
  | _, _ => false
def jeqList : List Json → List Json → Bool
  | [], [] => true
  | a :: as', b :: bs' => jeq a b && jeqList as' bs'
  | _, _ => false
def jeqFields : List (PyStr × Json) → List (PyStr × Json) → Bool
  | [], [] => true
  | (k, v) :: as', (l, w) :: bs' => k == l && jeq v w && jeqFields as' bs'
  | _, _ => false
end

/-- Lower-case hexadecimal digit, as `'%04x' % n` renders one. -/
def hexDigitLower (n : Nat) : Char :=
  if n < 10 then Char.ofNat (48 + n) else Char.ofNat (87 + n)

/-- Four-digit lower-case hex rendering of `n < 0x10000`. -/
def hex4 (n : Nat) : List Char :=
  [hexDigitLower (n / 4096 % 16), hexDigitLower (n / 256 % 16),
   hexDigitLower (n / 16 % 16), hexDigitLower (n % 16)]

/-- One character as `json.dumps` escapes it with `ensure_ascii=True`:
the two-character escapes for `\" \\ \b \f \n \r \t`, printable ASCII kept
verbatim, everything else (controls, non-ASCII) as `\uXXXX`, using a
surrogate pair above `U+FFFF`. -/
def escapeChar (c : Char) : List Char :=
  if c = dquote then [bslash, dquote]
  else if c = bslash then [bslash, bslash]
  else if c.toNat = 8 then [bslash, 'b']
  else if c.toNat = 12 then [bslash, 'f']
  else if c = '\n' then [bslash, 'n']
  else if c = '\r' then [bslash, 'r']
  else if c = '\t' then [bslash, 't']
  else if 32 ≤ c.toNat && c.toNat ≤ 126 then [c]
  else if c.toNat < 65536 then bslash :: 'u' :: hex4 c.toNat
  else
    bslash :: 'u' :: hex4 (55296 + (c.toNat - 65536) / 1024) ++
      bslash :: 'u' :: hex4 (56320 + (c.toNat - 65536) % 1024)

def escapeStr (s : PyStr) : List Char := s.flatMap escapeChar

mutual
/-- `json.dumps` with its default separators `", "` and `": "`. -/
def dumpsVal : Json → List Char
  | .null => pys "null"
  | .bool true => pys "true"
  | .bool false => pys "false"
  | .int n => intToChars n
  | .str s => dquote :: escapeStr s ++ [dquote]
  | .arr es => '[' :: dumpsElems es ++ [']']
  | .obj fs => lcurl :: dumpsFields fs ++ [rcurl]
def dumpsElems : List Json → List Char
  | [] => []
  | [e] => dumpsVal e
  | e :: e' :: es => dumpsVal e ++ ',' :: ' ' :: dumpsElems (e' :: es)
def dumpsFields : List (PyStr × Json) → List Char
  | [] => []
  | [(k, v)] => dquote :: escapeStr k ++ dquote :: ':' :: ' ' :: dumpsVal v
  | (k, v) :: f :: fs =>
    dquote :: escapeStr k ++ dquote :: ':' :: ' ' :: dumpsVal v ++
      ',' :: ' ' :: dumpsFields (f :: fs)
end

def jsonDumps (m : Json) : List Char := dumpsVal m

/-! ## JSON parsing (`json.loads`)

Model of the stdlib decoder on the grammar the embedded messages use.
Restrictions relative to CPython, none of which the repository's traffic can
hit: float literals (a `.`/`e` continuation after an integer part) and lone
surrogate escapes make the model decoder fail instead of producing a Python
float resp. an unpaired-surrogate string, neither of which is representable
here. -/

def isWsJson (c : Char) : Bool := c = ' ' || c = '\t' || c = '\n' || c = '\r'

def skipWs (s : List Char) : List Char := s.dropWhile isWsJson

def hexVal (c : Char) : Option Nat :=
  if 48 ≤ c.toNat && c.toNat ≤ 57 then some (c.toNat - 48)
  else if 97 ≤ c.toNat && c.toNat ≤ 102 then some (c.toNat - 87)
  else if 65 ≤ c.toNat && c.toNat ≤ 70 then some (c.toNat - 55)
  else none

def hex4Val : List Char → Option (Nat × List Char)
  | a :: b :: c :: d :: rest =>
    match hexVal a, hexVal b, hexVal c, hexVal d with
    | some va, some vb, some vc, some vd =>
      some (va * 4096 + vb * 256 + vc * 16 + vd, rest)
    | _, _, _, _ => none
  | _ => none

/-- Does the remainder extend a number token (which would make it a float or
an ill-formed literal)? -/
def fracStart : List Char → Bool
  | [] => false
  | c :: _ => isDigitCh c || c = '.' || c = 'e' || c = 'E'

/-- Does the remainder start with a decimal digit? -/
def digitStart : List Char → Bool
  | [] => false
  | c :: _ => isDigitCh c

/-- Decode an unsigned JSON integer literal (`0 | [1-9][0-9]*`). -/
def parseJsonNat : List Char → Option (Nat × List Char)
  | [] => none
  | c :: cs =>
    if c = '0' then
      if fracStart cs then none else some (0, cs)
    else if isDigitCh c then
      let r := takeDigits (c :: cs)
      if fracStart r.2 then none else some (digitsVal r.1, r.2)
    else none

def parseJsonInt (input : List Char) : Option (Json × List Char) :=
  match input with
  | [] => none
  | c :: rest =>
    if c = '-' then (parseJsonNat rest).map (fun p => (Json.int (-(p.1 : Int)), p.2))
    else (parseJsonNat (c :: rest)).map (fun p => (Json.int (p.1 : Int), p.2))

/-- Decode the body of a JSON string after the opening quote, consuming the
closing quote (`py_scanstring`): unescaped characters must be `≥ 0x20`, the
short escapes and `\uXXXX` (with surrogate-pair combining) are understood. -/
def parseStrBody : Nat → List Char → Option (PyStr × List Char)
  | 0, _ => none
  | _ + 1, [] => none
  | fuel + 1, c :: cs =>
    if c = dquote then some ([], cs)
    else if c = bslash then
      match cs with
      | [] => none
      | e :: cs' =>
        if e = dquote then (parseStrBody fuel cs').map (fun p => (dquote :: p.1, p.2))
        else if e = bslash then (parseStrBody fuel cs').map (fun p => (bslash :: p.1, p.2))
        else if e = '/' then (parseStrBody fuel cs').map (fun p => ('/' :: p.1, p.2))
        else if e = 'b' then (parseStrBody fuel cs').map (fun p => (Char.ofNat 8 :: p.1, p.2))
        else if e = 'f' then (parseStrBody fuel cs').map (fun p => (Char.ofNat 12 :: p.1, p.2))
        else if e = 'n' then (parseStrBody fuel cs').map (fun p => ('\n' :: p.1, p.2))
        else if e = 'r' then (parseStrBody fuel cs').map (fun p => ('\r' :: p.1, p.2))
        else if e = 't' then (parseStrBody fuel cs').map (fun p => ('\t' :: p.1, p.2))
        else if e = 'u' then
          match hex4Val cs' with
          | none => none
          | some (n, cs'') =>
            if n < 55296 || 57344 ≤ n then
              (parseStrBody fuel cs'').map (fun p => (Char.ofNat n :: p.1, p.2))
            else if n < 56320 then
              match cs'' with
              | b :: u :: cs3 =>
                if b = bslash && u = 'u' then
                  match hex4Val cs3 with
                  | some (n2, cs4) =>
                    if 56320 ≤ n2 && n2 < 57344 then
                      (parseStrBody fuel cs4).map (fun p =>
                        (Char.ofNat (65536 + (n - 55296) * 1024 + (n2 - 56320)) :: p.1, p.2))
                    else none
                  | none => none
                else none
              | _ => none
            else none
        else none
    else if 32 ≤ c.toNat then (parseStrBody fuel cs).map (fun p => (c :: p.1, p.2))
    else none

/-- Decode a string body; each step consumes at least one input character, so
`length + 1` steps always suffice. -/
def parseStr (input : List Char) : Option (PyStr × List Char) :=
  parseStrBody (input.length + 1) input

/-- Map a fallible function over a list, stopping at the first raise. -/
def exceptMapList {α β : Type} (f : α → Except PyExc β) : List α → Except PyExc (List β)
  | [] => .ok []
  | a :: rest =>
    match f a with
    | .error e => .error e
    | .ok b => (exceptMapList f rest).map (b :: ·)

/-- `dict[k] = v` on an insertion-ordered association list: Python dict
update semantics (replace in place, else append). -/
def upsert {α β : Type} [DecidableEq α] : List (α × β) → α → β → List (α × β)
  | [], k, v => [(k, v)]
  | (k', v') :: rest, k, v =>
    if k' = k then (k', v) :: rest else (k', v') :: upsert rest k v

/-- `dict.get(k)` on an association list. -/
def lookupA {α β : Type} [DecidableEq α] : List (α × β) → α → Option β
  | [], _ => none
  | (k', v) :: rest, k => if k' = k then some v else lookupA rest k

/-- `dict(pairs)`: fold the decoded key/value pairs into an
insertion-ordered dictionary, later duplicates overwriting earlier ones. -/
def dictOfPairs (ps : List (PyStr × Json)) : List (PyStr × Json) :=
  ps.foldl (fun m p => upsert m p.1 p.2) []

mutual
/-- Decode one JSON value (fuelled recursive descent; the nesting depth of a
decodable input is below its length, so the fuel `jsonLoads` supplies never
runs out on real input). -/
def parseVal : Nat → List Char → Option (Json × List Char)
  | 0, _ => none
  | fuel + 1, input =>
    match skipWs input with
    | [] => none
    | c :: cs =>
      if c = dquote then (parseStr cs).map (fun p => (Json.str p.1, p.2))
      else if c = '[' then
        match skipWs cs with
        | d :: ds =>
          if d = ']' then some (Json.arr [], ds)
          else (parseElems fuel (d :: ds)).map (fun p => (Json.arr p.1, p.2))
        | [] => none
      else if c = lcurl then
        match skipWs cs with
        | d :: ds =>
          if d = rcurl then some (Json.obj [], ds)
          else (parseFields fuel (d :: ds)).map (fun p => (Json.obj (dictOfPairs p.1), p.2))
        | [] => none
      else if c = 't' then
        match cs with
        | 'r' :: 'u' :: 'e' :: r => some (Json.bool true, r)
        | _ => none
      else if c = 'f' then
        match cs with
        | 'a' :: 'l' :: 's' :: 'e' :: r => some (Json.bool false, r)
        | _ => none
      else if c = 'n' then
        match cs with
        | 'u' :: 'l' :: 'l' :: r => some (Json.null, r)
        | _ => none
      else if c = '-' || isDigitCh c then parseJsonInt (c :: cs)
      else none
/-- Decode the elements of a non-empty array up to and including `]`. -/
def parseElems : Nat → List Char → Option (List Json × List Char)
  | 0, _ => none
  | fuel + 1, input =>
    match parseVal fuel input with
    | none => none
    | some (v, r) =>
      match skipWs r with
      | c :: cs =>
        if c = ',' then (parseElems fuel cs).map (fun p => (v :: p.1, p.2))
        else if c = ']' then some ([v], cs)
        else none
      | [] => none
/-- Decode the members of a non-empty object up to and including `\x7d`. -/
def parseFields : Nat → List Char → Option (List (PyStr × Json) × List Char)
  | 0, _ => none
  | fuel + 1, input =>
    match skipWs input with
    | c :: cs =>
      if c = dquote then
        match parseStr cs with
        | none => none
        | some (k, r) =>
          match skipWs r with
          | d :: ds =>
            if d = ':' then
              match parseVal fuel ds with
              | none => none
              | some (v, r') =>
                match skipWs r' with
                | e :: es =>
                  if e = ',' then (parseFields fuel es).map (fun p => ((k, v) :: p.1, p.2))
                  else if e = rcurl then some ([(k, v)], es)
                  else none
                | [] => none
            else none
          | [] => none
      else none
    | [] => none
end

/-- `json.loads`: decode one value and require only whitespace to remain. -/
def jsonLoads (input : List Char) : Option Json :=
  match parseVal (input.length + 1) input with
  | some (v, r) => if skipWs r = [] then some v else none
  | none => none

mutual
/-- Fuel needed by `parseVal` to decode the canonical rendering of a value:
one unit per nesting-or-element step. -/
def jweight : Json → Nat
  | .arr es => jweightElems es + 1
  | .obj fs => jweightFields fs + 1
  | _ => 1
def jweightElems : List Json → Nat
  | [] => 0
  | e :: es => max (jweight e) (jweightElems es) + 1
def jweightFields : List (PyStr × Json) → Nat
  | [] => 0
  | f :: fs => max (jweight f.2) (jweightFields fs) + 1
end

def nodupKeys {β : Type} : List (PyStr × β) → Bool
  | [] => true
  | (k, _) :: rest => !(rest.map (·.1)).contains k && nodupKeys rest

mutual
/-- A JSON value that denotes an actual Python object: every object level
has pairwise distinct keys (it came from a `dict`). -/
def jsonWF : Json → Bool
  | .arr es => jsonWFElems es
  | .obj fs => nodupKeys fs && jsonWFFields fs
  | _ => true
def jsonWFElems : List Json → Bool
  | [] => true
  | e :: es => jsonWF e && jsonWFElems es
def jsonWFFields : List (PyStr × Json) → Bool
  | [] => true
  | f :: fs => jsonWF f.2 && jsonWFFields fs
end

/-! ## The byte stream and the framing layer

`asyncio.StreamReader` buffers the bytes the transport has delivered so far.
`ByteStream.buffer` is the delivered-but-unconsumed data; `chunks` are the
future deliveries, one per transport event.  `readline` waits for a full
line (pulling further chunks as needed); `read n` returns **up to** `n`
bytes: whatever is buffered, or the next single chunk if the buffer is
empty — this is exactly the asyncio contract and the crux of claim C3. -/

structure ByteStream where
  buffer : List Char
  chunks : List (List Char)
  deriving DecidableEq, Repr

def totalLen (s : ByteStream) : Nat :=
  s.buffer.length + (s.chunks.map List.length).sum

/-- Split a byte string at its first newline, keeping the newline on the
left (the shape `readline` returns). -/
def splitNl : List Char → Option (List Char × List Char)
  | [] => none
  | c :: cs =>
    if c = '\n' then some ([c], cs)
    else
      match splitNl cs with
      | some (l, r) => some (c :: l, r)
      | none => none

/-- `await reader.readline()`: waits until a newline or EOF; at EOF the
partial line (possibly `b''`) is returned. -/
def readLineAux : List Char → List (List Char) → List Char × ByteStream
  | buf, [] =>
    match splitNl buf with
    | some (l, r) => (l, ⟨r, []⟩)
    | none => (buf, ⟨[], []⟩)
  | buf, ch :: chs =>
    match splitNl buf with
    | some (l, r) => (l, ⟨r, ch :: chs⟩)
    | none => readLineAux (buf ++ ch) chs

def readLine (s : ByteStream) : List Char × ByteStream :=
  readLineAux s.buffer s.chunks

/-- `await reader.read(n)`: if data is buffered, return up to `n` bytes of
it; otherwise wait for one delivery and return up to `n` bytes of that; at
EOF return `b''`.  It does **not** wait for `n` bytes. -/
def readBytes (n : Nat) (s : ByteStream) : List Char × ByteStream :=
  if s.buffer = [] then
    match s.chunks with
    | [] => ([], s)
    | ch :: chs => (ch.take n, ⟨ch.drop n, chs⟩)
  else (s.buffer.take n, ⟨s.buffer.drop n, s.chunks⟩)

/-- Remove trailing whitespace. -/
def pyStripEnd (s : List Char) : List Char :=
  (s.reverse.dropWhile isWsJson).reverse

/-- Python `str.strip()` for the whitespace the header lines can carry. -/
def pyStrip (s : List Char) : List Char :=
  pyStripEnd (s.dropWhile isWsJson)

/-- `line.split(':', 1)`: the part before the first colon and the part
after it (the caller only invokes this when a colon is present). -/
def splitColon : List Char → List Char × List Char
  | [] => ([], [])
  | c :: cs =>
    if c = ':' then ([], cs)
    else
      let r := splitColon cs
      (c :: r.1, r.2)

/-- `LSPClient._send_message`: `json.dumps(message).encode()` prefixed by
the `Content-Length` header and a blank line. -/
def send_message (message : Json) : List Char :=
  pys "Content-Length: " ++ natToChars (jsonDumps message).length ++
    '\r' :: '\n' :: '\r' :: '\n' :: jsonDumps message

/-- Outcome of the header-reading inner loop of `_read_messages`. -/
inductive HeadersOut where
  | eof
  | done (headers : List (PyStr × PyStr)) (rest : ByteStream)
  deriving DecidableEq, Repr

/-- The inner `while True` of `_read_messages`: read lines into `headers`
until a blank line (after `strip`) or EOF (`b''` from `readline`). -/
def readHeadersLoop : Nat → List (PyStr × PyStr) → ByteStream → HeadersOut
  | 0, _, _ => .eof
  | fuel + 1, headers, s =>
    let (line, s') := readLine s
    if line = [] then .eof
    else
      let stripped := pyStrip line
      if stripped = [] then .done headers s'
      else if stripped.contains ':' then
        let kv := splitColon stripped
        readHeadersLoop fuel (upsert headers (pyStrip kv.1) (pyStrip kv.2)) s'
      else readHeadersLoop fuel headers s'

def readHeaders (s : ByteStream) : HeadersOut :=
  readHeadersLoop (totalLen s + 1) [] s

/-- `int(value)` as applied to a `Content-Length` header value: optional
sign and a nonempty digit string (surrounding whitespace was stripped by
the header parser). -/
def pyToInt : PyStr → Option Int
  | [] => none
  | c :: rest =>
    if c = '-' then
      if rest ≠ [] && rest.all isDigitCh then some (-(digitsVal rest : Int)) else none
    else if c = '+' then
      if rest ≠ [] && rest.all isDigitCh then some (digitsVal rest : Int) else none
    else if (c :: rest).all isDigitCh then some (digitsVal (c :: rest) : Int) else none

/-- `reader.read` is only ever called with the parsed `Content-Length`; a
negative argument makes asyncio read until EOF. -/
def readBytesInt (n : Int) (s : ByteStream) : List Char × ByteStream :=
  match n with
  | .ofNat m => readBytes m s
  | .negSucc _ => (s.buffer ++ s.chunks.flatten, ⟨[], []⟩)

/-- One run of `LSPClient._read_messages`, instrumented: the first list is
every decoded message passed to `_handle_message` in order, the second is
every raw payload handed to `json.loads` (so the byte counts actually
consumed for payloads are observable).  A frame without `Content-Length`
is skipped (`continue`); a payload that fails to decode is dropped
(`except json.JSONDecodeError: pass`); a non-numeric `Content-Length`
raises `ValueError`, which only the outermost blanket `except` catches, so
it silently ends the loop. -/
def readMessagesLoop : Nat → ByteStream → List Json × List (List Char)
  | 0, _ => ([], [])
  | fuel + 1, s =>
    match readHeaders s with
    | .eof => ([], [])
    | .done headers s' =>
      match lookupA headers (pys "Content-Length") with
      | none => readMessagesLoop fuel s'
      | some v =>
        match pyToInt v with
        | none => ([], [])
        | some n =>
          let (content, s'') := readBytesInt n s'
          match jsonLoads content with
          | none =>
            let r := readMessagesLoop fuel s''
            (r.1, content :: r.2)
          | some msg =>
            let r := readMessagesLoop fuel s''
            (msg :: r.1, content :: r.2)

/-- `_read_messages` on a whole stream; every outer iteration consumes at
least one byte or ends the loop, so `totalLen + 1` iterations suffice. -/
def read_messages (s : ByteStream) : List Json × List (List Char) :=
  readMessagesLoop (totalLen s + 1) s

/-- The messages `_read_messages` decodes and hands to `_handle_message`. -/
def decodedMessages (s : ByteStream) : List Json := (read_messages s).1

/-- The raw payloads `_read_messages` hands to `json.loads`. -/
def payloadsRead (s : ByteStream) : List (List Char) := (read_messages s).2

/-! ## LSP data types (`lsp_types.py`) and the client state

`Position(**…)` accepts exactly the keys `line` and `character`; the values
on the wire are integers (a non-integer coordinate is rejected here where
CPython would defer the failure to `to_dict`'s `+ 1`). -/

structure Position where
  line : Int
  character : Int
  deriving DecidableEq, Repr

/-- `Range` of `lsp_types.py` (the source's `end` is a Lean keyword). -/
structure DiagRange where
  start : Position
  endPos : Position
  deriving DecidableEq, Repr

/-- `Diagnostic` of `lsp_types.py`.  `severity`, `message`, `code` and
`source` are stored exactly as taken from the wire dictionary. -/
structure Diagnostic where
  range : DiagRange
  severity : Json
  message : Json
  code : Option Json
  source : Option Json

/-- `message[k]` on a decoded JSON dictionary. -/
def jget (m : Json) (k : String) : Option Json :=
  match m with
  | .obj fs => lookupA fs (pys k)
  | _ => none

def positionOfJson (j : Json) : Except PyExc Position :=
  match j with
  | .obj fs =>
    match lookupA fs (pys "line"), lookupA fs (pys "character") with
    | some (.int l), some (.int c) =>
      if fs.length = 2 then .ok ⟨l, c⟩ else .error .typeError
    | _, _ => .error .typeError
  | _ => .error .typeError

/-- `Diagnostic.from_lsp`. -/
def from_lsp (data : Json) : Except PyExc Diagnostic := do
  let r ← match jget data "range" with
    | some r => Except.ok r
    | none => Except.error .keyError
  let startPos ← match jget r "start" with
    | some s => positionOfJson s
    | none => Except.error .keyError
  let endP ← match jget r "end" with
    | some e => positionOfJson e
    | none => Except.error .keyError
  let msg ← match jget data "message" with
    | some m => Except.ok m
    | none => Except.error .keyError
  Except.ok
    { range := ⟨startPos, endP⟩
      severity := (jget data "severity").getD (.int 3)
      message := msg
      code := jget data "code"
      source := jget data "source" }

/-- `severity_map.get(self.severity, "Unknown")` with
`severity_map = \x7b1: "Error", 2: "Warning", 3: "Info", 4: "Hint"\x7d`.
(`True` hashes like `1` in Python, hence the `bool` case.) -/
def severityLabel : Json → PyStr
  | .int 1 => pys "Error"
  | .int 2 => pys "Warning"
  | .int 3 => pys "Info"
  | .int 4 => pys "Hint"
  | .bool true => pys "Error"
  | _ => pys "Unknown"

/-- `Diagnostic.to_dict`: 1-based line, severity label, passthrough of the
remaining fields. -/
def to_dict (d : Diagnostic) : Json :=
  .obj
    [(pys "line", .int (d.range.start.line + 1)),
     (pys "character", .int d.range.start.character),
     (pys "severity", .str (severityLabel d.severity)),
     (pys "message", d.message),
     (pys "code", d.code.getD .null),
     (pys "source", d.source.getD .null)]

/-- Mutable state of `LSPClient`: the id counter, the keys of
`pending_requests`, the results the reader loop has posted into pending
futures, and `diagnostics_cache`. -/
structure ClientState where
  request_id : Int
  pending_requests : List Int
  resolved : List (Int × Json)
  diagnostics_cache : List (PyStr × List Diagnostic)

def initialClientState : ClientState :=
  { request_id := 0, pending_requests := [], resolved := [], diagnostics_cache := [] }

/-- The guard `"id" in message and message["id"] in self.pending_requests`
(ids on this wire are integers). -/
def msgIdIn (st : ClientState) (message : Json) : Option Int :=
  match jget message "id" with
  | some (.int i) => if st.pending_requests.contains i then some i else none
  | _ => none

/-- `LSPClient._handle_message`: resolve a pending future, or dispatch a
`textDocument/publishDiagnostics` notification into the cache (replacing
the record set for that uri).  Malformed publish parameters raise, which
the reader loop's blanket `except` then swallows. -/
def handle_message (st : ClientState) (message : Json) : Except PyExc ClientState :=
  match msgIdIn st message with
  | some i => .ok { st with resolved := st.resolved ++ [(i, message)] }
  | none =>
    match jget message "method" with
    | some (.str m) =>
      if m = pys "textDocument/publishDiagnostics" then do
        let params := (jget message "params").getD (.obj [])
        let uri ← match params with
          | .obj fs =>
            match lookupA fs (pys "uri") with
            | some (.str u) => Except.ok u
            | some _ => Except.error .typeError
            | none => Except.ok ([] : PyStr)
          | _ => Except.error .typeError
        let diagItems ← match params with
          | .obj fs =>
            match lookupA fs (pys "diagnostics") with
            | some (.arr items) => Except.ok items
            | some _ => Except.error .typeError
            | none => Except.ok ([] : List Json)
          | _ => Except.error .typeError
        let ds ← exceptMapList from_lsp diagItems
        Except.ok { st with diagnostics_cache := upsert st.diagnostics_cache uri ds }
      else .ok st
    | _ => .ok st

/-! ## `LSPClient._request` (claim C4)

The asynchronous wait is flattened: `arrival` tells whether (and when, in
seconds) a response message resolving this request's future arrives.
`asyncio.wait_for(future, timeout=30.0)` yields the response if it arrives
before the 30-second timer, else raises `asyncio.TimeoutError`. -/

def deadlineSecs : Nat := 30

def wait_for_response (arrival : Option (Nat × Json)) : Except PyExc Json :=
  match arrival with
  | some (t, resp) => if t < deadlineSecs then .ok resp else .error .timeoutError
  | none => .error .timeoutError

/-- `LSPClient._request`: allocate the next id, register the pending slot,
send, await with the fixed deadline; `except asyncio.TimeoutError: return
None`; `finally: self.pending_requests.pop(request_id, None)`. -/
def request_outcome (st : ClientState) (arrival : Option (Nat × Json)) :
    Except PyExc (Option Json) × ClientState :=
  let rid := st.request_id + 1
  let st1 : ClientState :=
    { st with request_id := rid, pending_requests := st.pending_requests ++ [rid] }
  let res : Except PyExc (Option Json) :=
    match wait_for_response arrival with
    | .ok resp => .ok (jget resp "result")
    | .error .timeoutError => .ok none
    | .error e => .error e
  (res, { st1 with pending_requests := st1.pending_requests.filter (· ≠ rid) })

/-! ## URI and path normalisation (claim C6)

`pathlib.PurePosixPath` string normalisation, `PurePath.as_uri` (quote with
`safe='/'`), `urllib.parse.unquote` and `Path.resolve` (no symlinks in the
model; multi-byte UTF-8 escape runs decode bytewise — all identifiers in
the repository's traffic are ASCII). -/

def hexDigitUpper (n : Nat) : Char :=
  if n < 10 then Char.ofNat (48 + n) else Char.ofNat (55 + n)

def pctEncodeByte (b : Nat) : List Char := ['%', hexDigitUpper (b / 16), hexDigitUpper (b % 16)]

def utf8Bytes (c : Char) : List Nat :=
  let n := c.toNat
  if n < 128 then [n]
  else if n < 2048 then [192 + n / 64, 128 + n % 64]
  else if n < 65536 then [224 + n / 4096, 128 + n / 64 % 64, 128 + n % 64]
  else [240 + n / 262144, 128 + n / 4096 % 64, 128 + n / 64 % 64, 128 + n % 64]

/-- The characters `urllib.parse.quote` never escapes, plus the default
`safe='/'`. -/
def quoteSafe (c : Char) : Bool :=
  (65 ≤ c.toNat && c.toNat ≤ 90) || (97 ≤ c.toNat && c.toNat ≤ 122) ||
    (48 ≤ c.toNat && c.toNat ≤ 57) || c = '_' || c = '.' || c = '-' || c = '~' || c = '/'

def pyQuote (s : PyStr) : PyStr :=
  s.flatMap fun c => if quoteSafe c then [c] else (utf8Bytes c).flatMap pctEncodeByte

def pyUnquoteF : Nat → PyStr → PyStr
  | 0, _ => []
  | _ + 1, [] => []
  | fuel + 1, '%' :: a :: b :: rest =>
    match hexVal a, hexVal b with
    | some va, some vb => Char.ofNat (va * 16 + vb) :: pyUnquoteF fuel rest
    | _, _ => '%' :: pyUnquoteF fuel (a :: b :: rest)
  | fuel + 1, c :: rest => c :: pyUnquoteF fuel rest

def pyUnquote (s : PyStr) : PyStr := pyUnquoteF s.length s

def splitSlash : PyStr → List PyStr
  | [] => [[]]
  | c :: cs =>
    let r := splitSlash cs
    if c = '/' then [] :: r
    else
      match r with
      | x :: xs => (c :: x) :: xs
      | [] => [[c]]

def isAbsPath (p : PyStr) : Bool :=
  match p with
  | '/' :: _ => true
  | _ => false

/-- The components of `PurePosixPath(p)` below the root: empty segments and
`.` segments vanish. -/
def purePathParts (p : PyStr) : List PyStr :=
  (splitSlash p).filter fun c => c ≠ [] && c ≠ pys "."

/-- `str(PurePosixPath(p))` for an absolute `p`. -/
def purePathStr (p : PyStr) : PyStr :=
  '/' :: List.intercalate ['/'] (purePathParts p)

/-- `Path(p).as_uri()`: `ValueError` on a relative path, else `file://`
plus the percent-quoted normalised path. -/
def as_uri (p : PyStr) : Except PyExc PyStr :=
  if isAbsPath p then .ok (pys "file://" ++ pyQuote (purePathStr p)) else .error .valueError

/-- Lexical `..` elimination of `Path.resolve` (never above the root). -/
def resolveDots (parts : List PyStr) : List PyStr :=
  parts.foldl (fun acc c => if c = pys ".." then acc.dropLast else acc ++ [c]) []

/-- `Path(p).resolve()` in a process whose working directory is `cwd`
(symlink-free model). -/
def pathResolve (cwd p : PyStr) : PyStr :=
  let q := if isAbsPath p then p else cwd ++ '/' :: p
  '/' :: List.intercalate ['/'] (resolveDots (purePathParts q))

/-- Python `s.replace(pat, repl)`: left-to-right, non-overlapping. -/
def replaceAllF : Nat → PyStr → PyStr → PyStr → PyStr
  | 0, _, _, _ => []
  | fuel + 1, s, pat, repl =>
    match s with
    | [] => []
    | c :: cs =>
      if pat ≠ [] && s.take pat.length = pat then
        repl ++ replaceAllF fuel (s.drop pat.length) pat repl
      else c :: replaceAllF fuel cs pat repl

def replaceAll (s pat repl : PyStr) : PyStr := replaceAllF s.length s pat repl

/-- `.replace("file://", "").replace("file:///", "/")` as `get_diagnostics`
applies it to both sides of the comparison. -/
def stripFileScheme (u : PyStr) : PyStr :=
  replaceAll (replaceAll u (pys "file://") []) (pys "file:///") ['/']

/-- The per-entry body of the `get_diagnostics` lookup loop. -/
def get_diagnostics_loop (cwd uri : PyStr) :
    List (PyStr × List Diagnostic) → List Diagnostic
  | [] => []
  | (cached_uri, ds) :: rest =>
    if cached_uri = uri then ds
    else
      let cached_path := pyUnquote (stripFileScheme cached_uri)
      let query_path := pyUnquote (stripFileScheme uri)
      if pathResolve cwd cached_path = pathResolve cwd query_path then ds
      else get_diagnostics_loop cwd uri rest

/-- `LSPClient.get_diagnostics`: convert the argument with
`Path(file_path).as_uri()` (which raises `ValueError` on anything that is
not an absolute native path), then scan the cache: exact key match, else
compare the percent-decoded, scheme-stripped, resolved paths. -/
def get_diagnostics (cwd : PyStr) (st : ClientState) (file_path : PyStr) :
    Except PyExc (List Diagnostic) :=
  match as_uri file_path with
  | .error e => .error e
  | .ok uri => .ok (get_diagnostics_loop cwd uri st.diagnostics_cache)

/-! ## The workflow engine (`agent/core.py`, claims C1 and C2)

`AgentCore._build_workflow` registers six nodes and compiles a LangGraph
`StateGraph`.  The executor below models the LangGraph Pregel runtime the
code runs on: supersteps in which every active node executes on the same
state snapshot, its partial updates are merged into the channels
(`REPLACE` for plain fields, `operator.add` for the annotated
accumulators), and then each finished node's (conditional) out-edges are
evaluated on the updated state to produce the next active set, a node
being scheduled at most once per superstep.  A node body raising makes
`ainvoke` re-raise; `ainvoke` stops normally when no tasks remain, and
raises `GraphRecursionError` after the default recursion limit of 25
supersteps.  The payloads produced by the three worker nodes (file system
reads, vector search, LSP diagnostics) enter as parameters of
`EngineEnv`, including whether each body raises. -/

inductive WFNode where
  | start
  | read_document_content
  | retrieval_vector_database
  | lsp_diagnostics
  | llm_diagnostics
  | display_on_github
  deriving DecidableEq, Repr

/-- Opaque stand-in for `SemanticAnalyzer.analyze`'s result object. -/
structure AnalysisResult where
  payload : Nat
  deriving DecidableEq, Repr

/-- The shape `CodeDiagnosticTool.diagnose` returns: file path to rendered
diagnostic dictionaries. -/
abbrev DiagResults := List (PyStr × List Json)

/-- The fields of `CodeReviewState` (`agent/state.py`) this workflow
touches; `document`, `semantic_analysis` and `diagnostics` are unset until
their producer node runs. -/
structure CodeReviewState where
  messages : List PyStr
  document : Option PyStr
  is_document_read : Bool
  git_diff : PyStr
  semantic_analysis : Option AnalysisResult
  is_code_retrieved : Bool
  diagnostics : Option DiagResults
  project_path : PyStr
  file_paths : List PyStr
  is_lsp_diagnosed : Bool
  errors : List PyStr
  warnings : List PyStr
  feedback_loop : Bool

/-- A node body's return value: a partial state update. -/
structure NodeUpdate where
  is_document_read : Option Bool := none
  document : Option PyStr := none
  is_code_retrieved : Option Bool := none
  semantic_analysis : Option AnalysisResult := none
  is_lsp_diagnosed : Option Bool := none
  diagnostics : Option DiagResults := none
  messages : List PyStr := []
  errors : List PyStr := []
  warnings : List PyStr := []

/-- Channel merge: last value for the plain fields, `operator.add` for
`messages`, `errors` and `warnings`. -/
def applyUpdate (s : CodeReviewState) (u : NodeUpdate) : CodeReviewState :=
  { s with
    is_document_read := u.is_document_read.getD s.is_document_read
    document := u.document.orElse fun _ => s.document
    is_code_retrieved := u.is_code_retrieved.getD s.is_code_retrieved
    semantic_analysis := u.semantic_analysis.orElse fun _ => s.semantic_analysis
    is_lsp_diagnosed := u.is_lsp_diagnosed.getD s.is_lsp_diagnosed
    diagnostics := u.diagnostics.orElse fun _ => s.diagnostics
    messages := s.messages ++ u.messages
    errors := s.errors ++ u.errors
    warnings := s.warnings ++ u.warnings }

/-- External outcomes of one run: what each worker node's body would
produce, or the exception it raises. -/
structure EngineEnv where
  docResult : Except PyExc PyStr
  semResult : Except PyExc AnalysisResult
  lspResult : Except PyExc DiagResults
  git_diff : PyStr
  project_path : PyStr
  file_paths : List PyStr

/-- The six node bodies of `AgentCore`.  `_start`, `_llm_diagnostics` and
`_display_on_github` return `\x7b\x7d`; the three workers set their gating
flag and payload, or raise. -/
def nodeBody (env : EngineEnv) : WFNode → CodeReviewState → Except PyExc NodeUpdate
  | .start, _ => .ok {}
  | .read_document_content, _ =>
    env.docResult.map fun d => { is_document_read := some true, document := some d }
  | .retrieval_vector_database, _ =>
    env.semResult.map fun a => { is_code_retrieved := some true, semantic_analysis := some a }
  | .lsp_diagnostics, _ =>
    env.lspResult.map fun m => { is_lsp_diagnosed := some true, diagnostics := some m }
  | .llm_diagnostics, _ => .ok {}
  | .display_on_github, _ => .ok {}

/-- `AgentCore._read_document_to_llm_condition`. -/
def read_document_to_llm_condition (s : CodeReviewState) : WFNode :=
  if s.is_document_read then .llm_diagnostics else .read_document_content

/-- `AgentCore._retrieval_database_to_llm_condition`. -/
def retrieval_database_to_llm_condition (s : CodeReviewState) : WFNode :=
  if s.is_code_retrieved then .llm_diagnostics else .retrieval_vector_database

/-- `AgentCore._lsp_diagnostics_to_llm_condition`. -/
def lsp_diagnostics_to_llm_condition (s : CodeReviewState) : WFNode :=
  if s.is_lsp_diagnosed then .llm_diagnostics else .lsp_diagnostics

/-- `AgentCore._llm_to_other_node`. -/
def llm_to_other_node (s : CodeReviewState) : WFNode :=
  if !s.is_document_read then .read_document_content
  else if !s.is_lsp_diagnosed then .lsp_diagnostics
  else if !s.is_code_retrieved then .retrieval_vector_database
  else .display_on_github

/-- The edges registered by `_build_workflow`, evaluated on the state after
the superstep's writes: three unconditional fan-out edges from `start`,
one conditional edge per worker, the four-way conditional edge from
`llm_diagnostics`, and `display_on_github → END`. -/
def successors (s : CodeReviewState) : WFNode → List WFNode
  | .start => [.read_document_content, .lsp_diagnostics, .retrieval_vector_database]
  | .read_document_content => [read_document_to_llm_condition s]
  | .retrieval_vector_database => [retrieval_database_to_llm_condition s]
  | .lsp_diagnostics => [lsp_diagnostics_to_llm_condition s]
  | .llm_diagnostics => [llm_to_other_node s]
  | .display_on_github => []

/-- Schedule each target node at most once per superstep. -/
def dedupNodes (ns : List WFNode) : List WFNode :=
  ns.foldl (fun acc n => if acc.contains n then acc else acc ++ [n]) []

structure EngineConfig where
  active : List WFNode
  state : CodeReviewState

/-- One superstep: run every active body on the snapshot, merge the
updates in order, then route. -/
def stepConfig (env : EngineEnv) (cfg : EngineConfig) : Except PyExc EngineConfig :=
  match exceptMapList (fun n => nodeBody env n cfg.state) cfg.active with
  | .error e => .error e
  | .ok ups =>
    let s' := ups.foldl applyUpdate cfg.state
    .ok ⟨dedupNodes (cfg.active.flatMap (successors s')), s'⟩

/-- The initial state literal of `AgentCore.review_code`. -/
def initialState (env : EngineEnv) : CodeReviewState :=
  { messages := [pys "Review this code change: " ++ env.git_diff.take 500 ++ pys "..."]
    document := none
    is_document_read := false
    git_diff := env.git_diff
    semantic_analysis := none
    is_code_retrieved := false
    diagnostics := none
    project_path := env.project_path
    file_paths := env.file_paths
    is_lsp_diagnosed := false
    errors := []
    warnings := []
    feedback_loop := false }

/-- The configurations a run passes through: superstep `n`'s active set and
the state its bodies observe; `none` once a body has raised. -/
def traceEngine (env : EngineEnv) : Nat → Option EngineConfig
  | 0 => some ⟨[.start], initialState env⟩
  | n + 1 =>
    match traceEngine env n with
    | some cfg => (stepConfig env cfg).toOption
    | none => none

/-- Run to quiescence, recording every node invocation; fuel is LangGraph's
default recursion limit. -/
def runEngineAux (env : EngineEnv) : Nat → EngineConfig → Except PyExc CodeReviewState × List WFNode
  | 0, _ => (.error .recursionError, [])
  | fuel + 1, cfg =>
    if cfg.active = [] then (.ok cfg.state, [])
    else
      match stepConfig env cfg with
      | .error e => (.error e, cfg.active)
      | .ok cfg' =>
        let r := runEngineAux env fuel cfg'
        (r.1, cfg.active ++ r.2)

/-- `AgentCore.review_code`: build the initial state and `await
self.graph.ainvoke(initial_state)` — with no exception handling, so a
raising node body propagates to the caller.  The second component is the
log of node invocations. -/
def review_code (env : EngineEnv) : Except PyExc CodeReviewState × List WFNode :=
  runEngineAux env 25 ⟨[.start], initialState env⟩

/-! ## Server lifecycle (`server_manager.py`, `diagnostic_tool_final.py`)

`World` carries the operating system side: fresh pids and scratch
directories, the set of directories that currently exist, and the ordered
log of observable system actions.  `final_deliverables`' tool imports an
`lsp_client` not shipped under `src/`; the `scripts` client embedded above
is used for it (the `diagnose` flow only touches `open/close_document`,
`get_diagnostics` and `shutdown`). -/

inductive SysEvent where
  | mkdtemp (dir : Nat)
  | spawn (pid : Nat) (workspace : PyStr)
  | terminate (pid : Nat)
  | kill (pid : Nat)
  | rmtreeTry (dir : Nat)
  | clientShutdown
  deriving DecidableEq, Repr

structure World where
  nextPid : Nat
  nextDir : Nat
  dirs : List Nat
  events : List SysEvent
  deriving DecidableEq, Repr

/-- `ServerManager.__init__`'s two fields (note: `stop` never clears
them). -/
structure ServerManager where
  process : Option Nat
  data_dir : Option Nat
  deriving DecidableEq, Repr

/-- Host behaviour the lifecycle code reacts to. -/
structure MgrEnv where
  cwd : PyStr
  jdtlsFound : Bool
  terminateHangs : Bool
  rmtreeFails : Bool

/-- `ServerManager.start_java_server`: `tempfile.mkdtemp`, locate jdtls by
probing the fixed candidate list (`env.jdtlsFound` says whether any probe
matches), raise `FileNotFoundError` if none does, else spawn the launch
command and hand back the process pipes (stood for by the pid). -/
def start_java_server (env : MgrEnv) (w : World) (mgr : ServerManager) (workspace : PyStr) :
    Except PyExc Nat × ServerManager × World :=
  let d := w.nextDir
  let w1 : World :=
    { w with nextDir := w.nextDir + 1, dirs := d :: w.dirs, events := w.events ++ [.mkdtemp d] }
  let mgr1 : ServerManager := { mgr with data_dir := some d }
  if !env.jdtlsFound then (.error .fileNotFoundError, mgr1, w1)
  else
    let pid := w1.nextPid
    (.ok pid, { mgr1 with process := some pid },
      { w1 with nextPid := pid + 1, events := w1.events ++ [.spawn pid workspace] })

/-- `ServerManager.stop`: terminate, wait 5 s, kill on timeout; then
`shutil.rmtree` the scratch directory if it exists, swallowing failures. -/
def mgrStop (env : MgrEnv) (w : World) (mgr : ServerManager) : ServerManager × World :=
  let w1 : World :=
    match mgr.process with
    | some pid =>
      let w' : World := { w with events := w.events ++ [.terminate pid] }
      if env.terminateHangs then { w' with events := w'.events ++ [.kill pid] } else w'
    | none => w
  let w2 : World :=
    match mgr.data_dir with
    | some d =>
      if w1.dirs.contains d then
        let w' : World := { w1 with events := w1.events ++ [.rmtreeTry d] }
        if env.rmtreeFails then w' else { w' with dirs := w'.dirs.filter (· ≠ d) }
      else w1
    | none => w1
  (mgr, w2)

/-- `CodeDiagnosticTool.__init__`'s fields. -/
structure CodeDiagnosticTool where
  server_manager : ServerManager
  client : Option ClientState
  workspace_path : Option PyStr
  is_server_running : Bool

def initialTool : CodeDiagnosticTool :=
  { server_manager := ⟨none, none⟩, client := none, workspace_path := none,
    is_server_running := false }

/-- `CodeDiagnosticTool.stop_server`: a no-op unless `is_server_running`;
otherwise best-effort client shutdown, `ServerManager.stop`, and clearing
of the running flag, client and workspace path. -/
def stop_server (env : MgrEnv) (w : World) (tool : CodeDiagnosticTool) :
    CodeDiagnosticTool × World :=
  if !tool.is_server_running then (tool, w)
  else
    let w1 : World :=
      if tool.client.isSome then { w with events := w.events ++ [.clientShutdown] } else w
    let mw := mgrStop env w1 tool.server_manager
    ({ tool with
        server_manager := mw.1
        is_server_running := false
        client := none
        workspace_path := none }, mw.2)

/-- `CodeDiagnosticTool.start_server`: absolutise the workspace, return at
once if already running for it, stop first if running for another, then
record the workspace, spawn, create the client and initialise it (the
boolean `initialize` returns is ignored), and finally mark running.  A
spawn failure propagates after `workspace_path` was already overwritten. -/
def start_server (env : MgrEnv) (w : World) (tool : CodeDiagnosticTool)
    (workspace_path : PyStr) (language : PyStr) :
    Except PyExc Unit × CodeDiagnosticTool × World :=
  let path := pathResolve env.cwd workspace_path
  if tool.is_server_running && tool.workspace_path = some path then (.ok (), tool, w)
  else
    let tw := if tool.is_server_running then stop_server env w tool else (tool, w)
    let tool1 : CodeDiagnosticTool := { tw.1 with workspace_path := some path }
    if language ≠ pys "java" then (.error .valueError, tool1, tw.2)
    else
      match start_java_server env tw.2 tool1.server_manager path with
      | (.error e, mgr, w') => (.error e, { tool1 with server_manager := mgr }, w')
      | (.ok _, mgr, w') =>
        (.ok (),
          { tool1 with
            server_manager := mgr
            client := some initialClientState
            is_server_running := true }, w')

/-- How reading one source file goes (`open` inside `diagnose`). -/
inductive FileReadRes where
  | notFound
  | content (code : PyStr)
  | decodeFailBoth
  | raiseErr (e : PyExc)

/-- Extends the host behaviour with what `diagnose` consumes: the files
`_find_source_files` would report, each file's readability, and the
diagnostics the server publishes once documents are opened. -/
structure ToolEnv extends MgrEnv where
  findSourceFiles : List PyStr
  fileRead : PyStr → FileReadRes
  published : List (PyStr × List Diagnostic)

/-- The per-file loop of `diagnose`: existence check, read (two decode
attempts, other errors propagate), `open_document`, the bounded
diagnostics poll (pure here: the published set), rendering with `to_dict`,
`close_document`. -/
def diagnoseLoop (env : ToolEnv) (project : PyStr) (st : ClientState) :
    List PyStr → DiagResults → Except PyExc (DiagResults × ClientState)
  | [], acc => .ok (acc, st)
  | f :: fs, acc =>
    let abs_file_path := if isAbsPath f then pathResolve env.cwd f else project ++ '/' :: f
    match env.fileRead abs_file_path with
    | .notFound => diagnoseLoop env project st fs (upsert acc f [])
    | .decodeFailBoth => diagnoseLoop env project st fs (upsert acc f [])
    | .raiseErr e => .error e
    | .content _ =>
      let st' : ClientState := { st with diagnostics_cache := env.published }
      match get_diagnostics env.cwd st' abs_file_path with
      | .error e => .error e
      | .ok ds => diagnoseLoop env project st' fs (upsert acc f (ds.map to_dict))

/-- `CodeDiagnosticTool.diagnose`: the `try` body (file discovery, server
start, per-file loop) with `stop_server` applied afterwards in all cases —
the `finally`. -/
def diagnose (env : ToolEnv) (w : World) (tool : CodeDiagnosticTool)
    (project_path : PyStr) (file_paths : Option (List PyStr)) :
    Except PyExc DiagResults × CodeDiagnosticTool × World :=
  let project := pathResolve env.cwd project_path
  let body : Except PyExc DiagResults × CodeDiagnosticTool × World :=
    match (match file_paths with
           | none => if env.findSourceFiles = [] then none else some env.findSourceFiles
           | some fps => some fps) with
    | none => (.ok [], tool, w)
    | some fps =>
      match start_server env.toMgrEnv w tool project (pys "java") with
      | (.error e, tool', w') => (.error e, tool', w')
      | (.ok _, tool', w') =>
        match tool'.client with
        | none => (.error .typeError, tool', w')
        | some st =>
          match diagnoseLoop env project st fps [] with
          | .error e => (.error e, tool', w')
          | .ok (results, st') => (.ok results, { tool' with client := some st' }, w')
  let fin := stop_server env.toMgrEnv body.2.2 body.2.1
  (body.1, fin.1, fin.2)

/-! ## Concrete fixtures used by individual claims -/

/-- The wire form of one diagnostic (spec §6 message shape). -/
def wireDiag (l c el ec sev : Int) (msg : Json) : Json :=
  .obj
    [(pys "range",
      .obj
        [(pys "start", .obj [(pys "line", .int l), (pys "character", .int c)]),
         (pys "end", .obj [(pys "line", .int el), (pys "character", .int ec)])]),
     (pys "severity", .int sev),
     (pys "message", msg)]

/-- A `textDocument/publishDiagnostics` notification. -/
def publishNotif (u : PyStr) (diags : List Json) : Json :=
  .obj
    [(pys "jsonrpc", .str (pys "2.0")),
     (pys "method", .str (pys "textDocument/publishDiagnostics")),
     (pys "params", .obj [(pys "uri", .str u), (pys "diagnostics", .arr diags)])]

/-- The diagnostic a decoded `wireDiag` yields. -/
def diagOfWire (l c el ec sev : Int) (msg : Json) : Diagnostic :=
  ⟨⟨⟨l, c⟩, ⟨el, ec⟩⟩, .int sev, msg, none, none⟩

/-- Claim C3's message: `\x7b"a": 1\x7d`, whose encoding is 8 bytes. -/
def c3Message : Json := .obj [(pys "a", .int 1)]

def c3Frame : List Char := send_message c3Message

/-- The same frame delivered in two transport chunks: the headers plus the
first four payload bytes, then the remaining four payload bytes. -/
def c3ChunkedStream : ByteStream := ⟨[], [c3Frame.take 25, c3Frame.drop 25]⟩

/-- Claim C2's run: reading and retrieval succeed, the LSP node body
raises. -/
def envC2 : EngineEnv :=
  ⟨.ok (pys "doc"), .ok ⟨0⟩, .error .processError, pys "diff", pys "/proj", []⟩

/-- The byte rendering of a block of header lines, each
`Key: value\r\n`. -/
def renderHeaders (hs : List (PyStr × PyStr)) : List Char :=
  hs.flatMap fun p => p.1 ++ ':' :: ' ' :: p.2 ++ ['\r', '\n']

/-- A header line the reader loop parses back as written: nonempty key
without colon or newline and already stripped, value without newline and
already stripped. -/
def goodHeader (p : PyStr × PyStr) : Bool :=
  p.1 ≠ [] && '\n' ∉ p.1 && ':' ∉ p.1 &&
    p.1.dropWhile isWsJson = p.1 && pyStripEnd p.1 = p.1 &&
    p.2 ≠ [] && '\n' ∉ p.2 && p.2.dropWhile isWsJson = p.2 && pyStripEnd p.2 = p.2

/-- Claim C5's witness message: an LSP initialize request. -/
def mC5 : Json :=
  .obj
    [(pys "jsonrpc", .str (pys "2.0")),
     (pys "id", .int 1),
     (pys "method", .str (pys "initialize")),
     (pys "params", .obj [(pys "processId", .null), (pys "rootUri", .str (pys "file:///proj"))])]

/-- Claim C1's witness run: all three worker bodies succeed. -/
def envC1 : EngineEnv :=
  ⟨.ok (pys "doc"), .ok ⟨0⟩, .ok [], pys "diff", pys "/proj", []⟩

def c6Diag : Diagnostic := ⟨⟨⟨0, 0⟩, ⟨0, 5⟩⟩, .int 1, .str (pys "bad"), none, none⟩

/-- A cache whose only record is stored under a native-path key. -/
def c6StNative : ClientState := ⟨0, [], [], [(pys "/tmp/a b/c.java", [c6Diag])]⟩

/-- Claim C10's host: no jdtls install present. -/
def tenvNoJdtls : ToolEnv := ⟨⟨pys "/", false, false, false⟩, [], fun _ => .notFound, []⟩

def w0 : World := ⟨100, 50, [], []⟩

/-- The active node set at superstep `n`. -/
def traceActive (env : EngineEnv) (n : Nat) : Option (List WFNode) :=
  (traceEngine env n).map (·.active)

/-- The three gating flags of the state at superstep `n`. -/
def traceFlags (env : EngineEnv) (n : Nat) : Option (Bool × Bool × Bool) :=
  (traceEngine env n).map fun c =>
    (c.state.is_document_read, c.state.is_code_retrieved, c.state.is_lsp_diagnosed)

/-! # Theorems

First the generic helper lemmas, then one theorem per claim (with its
witness or counterexample where required). -/

theorem lookupA_upsert {α β : Type} [DecidableEq α] (m : List (α × β)) (k : α) (v : β) :
    lookupA (upsert m k v) k = some v := by
  induction m with
  | nil => simp [upsert, lookupA]
  | cons p rest ih =>
    by_cases h : p.1 = k
    · simp [upsert, h, lookupA]
    · simp [upsert, h, lookupA, ih]

theorem mem_filter_ne {α : Type} [DecidableEq α] (l : List α) (a : α) :
    a ∉ l.filter (· ≠ a) := by
  intro h
  simp [List.mem_filter] at h

/-- C4: every `_request` resolves without raising; its pending-table entry
is removed whether a response arrived or the 30-second deadline expired;
and when no matching response arrives within the deadline the result is
the empty result `None`. -/
theorem request_timeout_empty_and_pending_cleared
    (st : ClientState) (arrival : Option (Nat × Json)) :
    (∃ v, (request_outcome st arrival).1 = Except.ok v) ∧
    (st.request_id + 1) ∉ (request_outcome st arrival).2.pending_requests ∧
    ((∀ t resp, arrival = some (t, resp) → deadlineSecs ≤ t) →
      (request_outcome st arrival).1 = Except.ok none) := by
  refine ⟨?_, ?_, ?_⟩
  · match arrival with
    | none => exact ⟨none, rfl⟩
    | some (t, resp) =>
      by_cases h : t < deadlineSecs
      · exact ⟨jget resp "result", by simp [request_outcome, wait_for_response, h]⟩
      · exact ⟨none, by simp [request_outcome, wait_for_response, h]⟩
  · simp [request_outcome, List.mem_filter]
  · intro h
    match harr : arrival with
    | none => simp [request_outcome, wait_for_response]
    | some (t, resp) =>
      have ht := h t resp rfl
      simp [request_outcome, wait_for_response, Nat.not_lt.mpr ht]

/-- Witness for C4 at a concrete state and an expired arrival. -/
theorem request_timeout_empty_and_pending_cleared_witness :
    (request_outcome ⟨3, [1, 2, 3], [], []⟩ (some (30, Json.obj []))).1 = Except.ok none ∧
    (4 : Int) ∉ (request_outcome ⟨3, [1, 2, 3], [], []⟩ (some (30, Json.obj []))).2.pending_requests := by
  have h := request_timeout_empty_and_pending_cleared ⟨3, [1, 2, 3], [], []⟩ (some (30, Json.obj []))
  exact ⟨h.2.2 (fun t resp heq => by cases heq; exact Nat.le_refl 30), h.2.1⟩

/-- C9: handling a publish-diagnostics notification caches the decoded
record under the notification's uri, and the record as rendered by
`to_dict` reports the wire's 0-based start line plus one and the severity
label given by the map `1 ↦ Error, 2 ↦ Warning, 3 ↦ Info, 4 ↦ Hint`; in
particular severity 1 at wire line 0 surfaces as line 1 with label
`"Error"`. -/
theorem publish_diagnostics_one_based_severity_label
    (st : ClientState) (u : PyStr) (l c el ec sev : Int) (msg : Json) :
    handle_message st (publishNotif u [wireDiag l c el ec sev msg]) =
      .ok { st with diagnostics_cache :=
              upsert st.diagnostics_cache u [diagOfWire l c el ec sev msg] } ∧
    lookupA (upsert st.diagnostics_cache u [diagOfWire l c el ec sev msg]) u =
      some [diagOfWire l c el ec sev msg] ∧
    jget (to_dict (diagOfWire l c el ec sev msg)) "line" = some (.int (l + 1)) ∧
    jget (to_dict (diagOfWire l c el ec sev msg)) "severity" =
      some (.str (severityLabel (.int sev))) ∧
    severityLabel (.int 1) = pys "Error" ∧ severityLabel (.int 2) = pys "Warning" ∧
    severityLabel (.int 3) = pys "Info" ∧ severityLabel (.int 4) = pys "Hint" := by
  refine ⟨rfl, lookupA_upsert _ _ _, rfl, rfl, rfl, rfl, rfl, rfl⟩

/-- C3 (failing input): the reader loop uses `reader.read(content_length)`,
which returns *up to* that many bytes.  Delivering the 8-byte frame of
`\x7b"a": 1\x7d` with the headers and the first 4 payload bytes in one
chunk and the rest in a second one makes `read` return a 4-byte short
read: only 4 of the 8 declared payload bytes are consumed before
decoding, the decode fails, the frame is lost — while the same bytes in
one chunk decode fine.  This contradicts the claimed
"consumes exactly N payload bytes … regardless of how the stream delivers
the bytes". -/
theorem read_messages_short_read :
    (jsonDumps c3Message).length = 8 ∧
    payloadsRead c3ChunkedStream = [(jsonDumps c3Message).take 4] ∧
    decodedMessages c3ChunkedStream = [] ∧
    decodedMessages ⟨c3Frame, []⟩ = [c3Message] ∧
    payloadsRead ⟨c3Frame, []⟩ = [jsonDumps c3Message] := by
  refine ⟨by rfl, by rfl, by rfl, by rfl, by rfl⟩

/-- C2 (counterexample): with the LSP node body raising, `review_code`
propagates the exception to its caller instead of returning the
accumulated state, so there is no returned state whose `errors`
accumulator could be non-empty. -/
theorem review_code_raises_on_node_error :
    (review_code envC2).1 = Except.error PyExc.processError ∧
    ¬ ∃ s, (review_code envC2).1 = Except.ok s := by
  refine ⟨rfl, ?_⟩
  rintro ⟨s, hs⟩
  rw [show (review_code envC2).1 = Except.error PyExc.processError from rfl] at hs
  cases hs

/-- C2 (amended): when a worker node body raises, `review_code` aborts the
run immediately and *propagates* the exception (no state, and in
particular no populated `errors` list, is returned — nothing in the engine
ever appends to `errors`), and the failing node body was invoked exactly
once: the engine does not auto-retry it. -/
theorem review_code_propagates_node_error (env : EngineEnv) (d : PyStr) (e : PyExc)
    (hdoc : env.docResult = .ok d) (hlsp : env.lspResult = .error e) :
    (review_code env).1 = Except.error e ∧
    (review_code env).2.count WFNode.lsp_diagnostics = 1 := by
  have hstep : review_code env =
      (Except.error e,
        [WFNode.start, WFNode.read_document_content, WFNode.lsp_diagnostics,
         WFNode.retrieval_vector_database]) := by
    obtain ⟨dr, sr, lr, g, pp, fp⟩ := env
    simp only at hdoc hlsp
    subst hdoc hlsp
    simp [review_code, runEngineAux, stepConfig, exceptMapList, nodeBody, successors,
      dedupNodes, applyUpdate, initialState, Except.map, read_document_to_llm_condition,
      retrieval_database_to_llm_condition, lsp_diagnostics_to_llm_condition,
      llm_to_other_node]
  rw [hstep]
  exact ⟨rfl, rfl⟩

/-- Witness for C2's amended theorem at the concrete failing run. -/
theorem review_code_propagates_node_error_witness :
    (review_code envC2).1 = Except.error PyExc.processError ∧
    (review_code envC2).2.count WFNode.lsp_diagnostics = 1 :=
  review_code_propagates_node_error envC2 (pys "doc") PyExc.processError rfl rfl

/-- C6 (counterexample): a record cached under the native-path key
`/tmp/a b/c.java` is *not* returned when `get_diagnostics` is queried with
the percent-escaped URI form `file:///tmp/a%20b/c.java`: the lookup first
applies `Path(file_path).as_uri()` to its argument, which raises
`ValueError` because a `file://…` string is not an absolute native path.
So the claimed symmetry ("a set cached under a native-path-derived key is
returned when queried via the URI-escaped equivalent") fails. -/
theorem get_diagnostics_uri_query_raises :
    get_diagnostics (pys "/") c6StNative (pys "file:///tmp/a%20b/c.java") =
      Except.error PyExc.valueError := by rfl

/-- C6 (amended): the normalization is one-directional.  A record cached
under any percent-escaped URI key `K` is returned when `get_diagnostics`
is queried with a native absolute path `p`, whenever `K`, after stripping
the `file://` scheme, percent-decoding and resolving, names the same
canonical path as `p`'s own URI rendering does; the reverse query (URI
form as argument) raises `ValueError` instead. -/
theorem get_diagnostics_native_query_finds_uri_key
    (cwd p K : PyStr) (ds : List Diagnostic) (st : ClientState)
    (hcache : st.diagnostics_cache = [(K, ds)])
    (habs : isAbsPath p = true)
    (hmatch : pathResolve cwd (pyUnquote (stripFileScheme K)) =
      pathResolve cwd (pyUnquote (stripFileScheme (pys "file://" ++ pyQuote (purePathStr p))))) :
    get_diagnostics cwd st p = .ok ds := by
  have huri : as_uri p = .ok (pys "file://" ++ pyQuote (purePathStr p)) := by
    simp [as_uri, habs]
  by_cases hk : K = pys "file://" ++ pyQuote (purePathStr p)
  · simp [get_diagnostics, huri, hcache, get_diagnostics_loop, hk]
  · simp [get_diagnostics, huri, hcache, get_diagnostics_loop, hk, hmatch]

/-- Witness for C6's amended theorem: the key is stored with an escaping
(`%2E` for the dot) that differs from `as_uri`'s own, so the hit goes
through the decode-and-resolve comparison, not the literal key match. -/
theorem get_diagnostics_native_query_finds_uri_key_witness :
    get_diagnostics (pys "/") ⟨0, [], [], [(pys "file:///tmp/a%20b/c%2Ejava", [c6Diag])]⟩
      (pys "/tmp/a b/c.java") = .ok [c6Diag] := by
  have h := get_diagnostics_native_query_finds_uri_key (pys "/") (pys "/tmp/a b/c.java")
    (pys "file:///tmp/a%20b/c%2Ejava") [c6Diag]
    ⟨0, [], [], [(pys "file:///tmp/a%20b/c%2Ejava", [c6Diag])]⟩ rfl (by rfl) (by rfl)
  exact h

theorem start_server_fresh (env : MgrEnv) (w : World) (p : PyStr)
    (hfound : env.jdtlsFound = true) (hp : pathResolve env.cwd p = p) :
    start_server env w initialTool p (pys "java") =
      (.ok (), ⟨⟨some w.nextPid, some w.nextDir⟩, some initialClientState, some p, true⟩,
        ⟨w.nextPid + 1, w.nextDir + 1, w.nextDir :: w.dirs,
          w.events ++ [.mkdtemp w.nextDir, .spawn w.nextPid p]⟩) := by
  simp [start_server, start_java_server, initialTool, hp, hfound]

theorem start_server_running_same (env : MgrEnv) (w : World) (p : PyStr)
    (tool : CodeDiagnosticTool)
    (hrun : tool.is_server_running = true) (hws : tool.workspace_path = some p)
    (hp : pathResolve env.cwd p = p) :
    start_server env w tool p (pys "java") = (.ok (), tool, w) := by
  simp [start_server, hp, hrun, hws]

/-- C8: starting again for the workspace the server is already running for
is a no-op (same tool state, same world, in particular no new `spawn`);
starting for a different workspace first stops the prior instance —
client shutdown, `terminate` of the old pid, scratch-directory removal —
and only then creates the new scratch directory and spawns the new
process, as the event log shows in order. -/
theorem start_server_idempotent_and_restart (env : MgrEnv) (w : World) (p q : PyStr)
    (hfound : env.jdtlsFound = true)
    (hterm : env.terminateHangs = false) (hrm : env.rmtreeFails = false)
    (hp : pathResolve env.cwd p = p) (hq : pathResolve env.cwd q = q)
    (hne : p ≠ q) :
    ∃ tool1 w1 tool2 w2,
      start_server env w initialTool p (pys "java") = (.ok (), tool1, w1) ∧
      start_server env w1 tool1 p (pys "java") = (.ok (), tool1, w1) ∧
      start_server env w1 tool1 q (pys "java") = (.ok (), tool2, w2) ∧
      w2.events = w1.events ++
        [.clientShutdown, .terminate w.nextPid, .rmtreeTry w.nextDir,
         .mkdtemp (w.nextDir + 1), .spawn (w.nextPid + 1) q] := by
  refine ⟨_, _, ?tool2, ?w2, start_server_fresh env w p hfound hp,
    start_server_running_same env _ p _ rfl rfl hp, ?_, ?_⟩
  case tool2 => exact
    ⟨⟨some (w.nextPid + 1), some (w.nextDir + 1)⟩, some initialClientState, some q, true⟩
  case w2 => exact
    ⟨w.nextPid + 2, w.nextDir + 2,
      (w.nextDir + 1) :: (w.nextDir :: w.dirs).filter (· ≠ w.nextDir),
      (w.events ++ [.mkdtemp w.nextDir, .spawn w.nextPid p]) ++
        [.clientShutdown, .terminate w.nextPid, .rmtreeTry w.nextDir,
         .mkdtemp (w.nextDir + 1), .spawn (w.nextPid + 1) q]⟩
  · simp [start_server, stop_server, mgrStop, start_java_server, hq, hfound, hterm, hrm,
      Option.some_inj, hne]
  · rfl

/-- Witness for C8 at a concrete host and two concrete workspaces. -/
theorem start_server_idempotent_and_restart_witness :
    ∃ tool1 w1 tool2 w2,
      start_server ⟨pys "/", true, false, false⟩ w0 initialTool (pys "/ws1") (pys "java") =
        (.ok (), tool1, w1) ∧
      start_server ⟨pys "/", true, false, false⟩ w1 tool1 (pys "/ws1") (pys "java") =
        (.ok (), tool1, w1) ∧
      start_server ⟨pys "/", true, false, false⟩ w1 tool1 (pys "/ws2") (pys "java") =
        (.ok (), tool2, w2) ∧
      w2.events = w1.events ++
        [.clientShutdown, .terminate w0.nextPid, .rmtreeTry w0.nextDir,
         .mkdtemp (w0.nextDir + 1), .spawn (w0.nextPid + 1) (pys "/ws2")] :=
  start_server_idempotent_and_restart ⟨pys "/", true, false, false⟩ w0
    (pys "/ws1") (pys "/ws2") rfl rfl rfl (by rfl) (by rfl) (by decide)

/-- C10 (counterexample): when the server executable is not found,
`diagnose` raises out of `start_server` *before* `is_server_running` was
set, so the `finally`'s `stop_server` returns immediately: afterwards
`workspace_path` is still set (not `None`), the scratch directory created
by `mkdtemp` still exists and no deletion was attempted — contradicting
the claim that every call leaves the tool fully torn down. -/
theorem diagnose_startup_failure_skips_teardown :
    (diagnose tenvNoJdtls w0 initialTool (pys "/proj") (some [pys "A.java"])).1 =
      Except.error PyExc.fileNotFoundError ∧
    (diagnose tenvNoJdtls w0 initialTool (pys "/proj") (some [pys "A.java"])).2.1.workspace_path =
      some (pys "/proj") ∧
    (diagnose tenvNoJdtls w0 initialTool (pys "/proj") (some [pys "A.java"])).2.1.is_server_running =
      false ∧
    (diagnose tenvNoJdtls w0 initialTool (pys "/proj") (some [pys "A.java"])).2.2.events =
      [SysEvent.mkdtemp 50] ∧
    (diagnose tenvNoJdtls w0 initialTool (pys "/proj") (some [pys "A.java"])).2.2.dirs = [50] := by
  exact ⟨by rfl, by rfl, by rfl, by rfl, by rfl⟩

/-- C10 (amended): `diagnose` always runs `stop_server` on the way out, and
whenever the server start completed (here: the executable is found, so
`is_server_running` was set), the call — returning normally or
propagating an exception from the per-file loop — leaves the tool torn
down: flag cleared, client and workspace path `None`, the old process
terminated (and killed after the bounded wait if termination hangs) and
scratch-directory deletion attempted.  If instead `diagnose` fails during
startup, before the flag is set, `stop_server` is a no-op and the partial
resources leak (see the counterexample). -/
theorem diagnose_teardown_after_server_started (env : ToolEnv) (w : World)
    (project : PyStr) (fps : List PyStr)
    (hfound : env.jdtlsFound = true)
    (hproj : pathResolve env.cwd project = project) :
    (diagnose env w initialTool project (some fps)).2.1.is_server_running = false ∧
    (diagnose env w initialTool project (some fps)).2.1.client = none ∧
    (diagnose env w initialTool project (some fps)).2.1.workspace_path = none ∧
    SysEvent.terminate w.nextPid ∈ (diagnose env w initialTool project (some fps)).2.2.events ∧
    SysEvent.rmtreeTry w.nextDir ∈ (diagnose env w initialTool project (some fps)).2.2.events ∧
    (env.terminateHangs = true →
      SysEvent.kill w.nextPid ∈ (diagnose env w initialTool project (some fps)).2.2.events) := by
  have hstart := start_server_fresh env.toMgrEnv w project hfound hproj
  cases hloop : diagnoseLoop env project initialClientState fps [] with
  | error e =>
    cases hth : env.terminateHangs <;> cases hrm : env.rmtreeFails <;>
      simp [diagnose, hproj, hstart, hloop, stop_server, mgrStop, hth, hrm]
  | ok pr =>
    cases hth : env.terminateHangs <;> cases hrm : env.rmtreeFails <;>
      simp [diagnose, hproj, hstart, hloop, stop_server, mgrStop, hth, hrm]

/-- Witness for C10's amended theorem: a concrete environment in which the
server starts, termination hangs (so the kill path is exercised too), and
the single listed file turns out unreadable. -/
theorem diagnose_teardown_after_server_started_witness :
    (diagnose ⟨⟨pys "/", true, true, false⟩, [], fun _ => .notFound, []⟩ w0 initialTool
      (pys "/proj") (some [pys "A.java"])).2.1.is_server_running = false ∧
    (diagnose ⟨⟨pys "/", true, true, false⟩, [], fun _ => .notFound, []⟩ w0 initialTool
      (pys "/proj") (some [pys "A.java"])).2.1.client = none ∧
    (diagnose ⟨⟨pys "/", true, true, false⟩, [], fun _ => .notFound, []⟩ w0 initialTool
      (pys "/proj") (some [pys "A.java"])).2.1.workspace_path = none ∧
    SysEvent.terminate 100 ∈
      (diagnose ⟨⟨pys "/", true, true, false⟩, [], fun _ => .notFound, []⟩ w0 initialTool
        (pys "/proj") (some [pys "A.java"])).2.2.events ∧
    SysEvent.rmtreeTry 50 ∈
      (diagnose ⟨⟨pys "/", true, true, false⟩, [], fun _ => .notFound, []⟩ w0 initialTool
        (pys "/proj") (some [pys "A.java"])).2.2.events ∧
    SysEvent.kill 100 ∈
      (diagnose ⟨⟨pys "/", true, true, false⟩, [], fun _ => .notFound, []⟩ w0 initialTool
        (pys "/proj") (some [pys "A.java"])).2.2.events := by
  have h := diagnose_teardown_after_server_started
    ⟨⟨pys "/", true, true, false⟩, [], fun _ => .notFound, []⟩ w0
    (pys "/proj") [pys "A.java"] rfl (by rfl)
  exact ⟨h.1, h.2.1, h.2.2.1, h.2.2.2.1, h.2.2.2.2.1, h.2.2.2.2.2 rfl⟩

theorem stepConfig_empty (env : EngineEnv) (s : CodeReviewState) :
    stepConfig env ⟨[], s⟩ = .ok ⟨[], s⟩ := rfl

theorem traceEngine_stable (env : EngineEnv) (s : CodeReviewState) (n : Nat)
    (h : traceEngine env n = some ⟨[], s⟩) :
    ∀ k, traceEngine env (n + k) = some ⟨[], s⟩ := by
  intro k
  induction k with
  | zero => exact h
  | succ k ih =>
    show traceEngine env (n + k + 1) = _
    simp [traceEngine, ih, stepConfig_empty, Except.toOption]

theorem traceEngine_none (env : EngineEnv) (n : Nat)
    (h : traceEngine env n = none) :
    ∀ k, traceEngine env (n + k) = none := by
  intro k
  induction k with
  | zero => exact h
  | succ k ih =>
    show traceEngine env (n + k + 1) = _
    simp [traceEngine, ih]

theorem traceActive_of (env : EngineEnv) (n : Nat) (cfg : EngineConfig)
    (h : traceEngine env n = some cfg) : traceActive env n = some cfg.active := by
  simp [traceActive, h]

theorem traceFlags_of (env : EngineEnv) (n : Nat) (cfg : EngineConfig)
    (h : traceEngine env n = some cfg) :
    traceFlags env n =
      some (cfg.state.is_document_read, cfg.state.is_code_retrieved,
        cfg.state.is_lsp_diagnosed) := by
  simp [traceFlags, h]

theorem workflow_no_display_of_step2_none (env : EngineEnv)
    (h2 : traceEngine env 2 = none) :
    ∀ j cfg, traceEngine env j = some cfg → WFNode.display_on_github ∈ cfg.active → False := by
  have hnone := traceEngine_none env 2 h2
  intro j cfg h hd
  rcases j with _ | (_ | j)
  · rw [show traceEngine env 0 = some ⟨[.start], initialState env⟩ from rfl] at h
    injection h with h'
    rw [← h'] at hd
    simp at hd
  · have h1 : traceActive env 1 =
        some [.read_document_content, .lsp_diagnostics, .retrieval_vector_database] := rfl
    have := traceActive_of _ _ _ h
    rw [h1] at this
    have hac : cfg.active =
        [WFNode.read_document_content, WFNode.lsp_diagnostics,
         WFNode.retrieval_vector_database] := by simpa using this.symm
    rw [hac] at hd
    simp at hd
  · have hidx : j + 1 + 1 = 2 + j := by omega
    rw [hidx, hnone j] at h
    cases h

/-- C1: along every run of the compiled workflow (any payloads, any of the
three worker bodies allowed to raise), the terminal publish node
`display_on_github` is active in at most one superstep, and whenever it is
entered all three gating flags (`is_document_read`, `is_code_retrieved`,
`is_lsp_diagnosed`) are true in the state it observes. -/
theorem workflow_terminal_once (env : EngineEnv) :
    (∀ n cfg, traceEngine env n = some cfg → WFNode.display_on_github ∈ cfg.active →
      cfg.state.is_document_read = true ∧ cfg.state.is_code_retrieved = true ∧
        cfg.state.is_lsp_diagnosed = true) ∧
    (∀ m n cfgm cfgn, traceEngine env m = some cfgm →
      WFNode.display_on_github ∈ cfgm.active →
      traceEngine env n = some cfgn → WFNode.display_on_github ∈ cfgn.active → m = n) := by
  obtain ⟨dr, sr, lr, g, pp, fp⟩ := env
  cases dr with
  | error e =>
    have h := workflow_no_display_of_step2_none ⟨.error e, sr, lr, g, pp, fp⟩ (by cases sr <;> cases lr <;> rfl)
    exact ⟨fun n cfg hc hd => (h n cfg hc hd).elim,
      fun m n cm cn hm hdm hn hdn => (h m cm hm hdm).elim⟩
  | ok d =>
  cases sr with
  | error e =>
    have h := workflow_no_display_of_step2_none ⟨.ok d, .error e, lr, g, pp, fp⟩ (by cases lr <;> rfl)
    exact ⟨fun n cfg hc hd => (h n cfg hc hd).elim,
      fun m n cm cn hm hdm hn hdn => (h m cm hm hdm).elim⟩
  | ok a =>
  cases lr with
  | error e =>
    have h := workflow_no_display_of_step2_none ⟨.ok d, .ok a, .error e, g, pp, fp⟩ rfl
    exact ⟨fun n cfg hc hd => (h n cfg hc hd).elim,
      fun m n cm cn hm hdm hn hdn => (h m cm hm hdm).elim⟩
  | ok m =>
  have hA0 : traceActive ⟨.ok d, .ok a, .ok m, g, pp, fp⟩ 0 = some [.start] := rfl
  have hA1 : traceActive ⟨.ok d, .ok a, .ok m, g, pp, fp⟩ 1 =
      some [.read_document_content, .lsp_diagnostics, .retrieval_vector_database] := rfl
  have hA2 : traceActive ⟨.ok d, .ok a, .ok m, g, pp, fp⟩ 2 = some [.llm_diagnostics] := rfl
  have hA3 : traceActive ⟨.ok d, .ok a, .ok m, g, pp, fp⟩ 3 = some [.display_on_github] := rfl
  have hF3 : traceFlags ⟨.ok d, .ok a, .ok m, g, pp, fp⟩ 3 = some (true, true, true) := rfl
  have hA4 : traceActive ⟨.ok d, .ok a, .ok m, g, pp, fp⟩ 4 = some [] := rfl
  obtain ⟨cfg4, hc4, hac4⟩ :
      ∃ cfg, traceEngine ⟨.ok d, .ok a, .ok m, g, pp, fp⟩ 4 = some cfg ∧ cfg.active = [] := by
    cases hc : traceEngine ⟨.ok d, .ok a, .ok m, g, pp, fp⟩ 4 with
    | none => rw [traceActive, hc] at hA4; cases hA4
    | some cfg =>
      refine ⟨cfg, rfl, ?_⟩
      rw [traceActive, hc] at hA4
      simpa using hA4.symm
  have hc4' : traceEngine ⟨.ok d, .ok a, .ok m, g, pp, fp⟩ 4 = some ⟨[], cfg4.state⟩ := by
    rw [hc4]
    cases cfg4
    simp_all
  have hstab := traceEngine_stable ⟨.ok d, .ok a, .ok m, g, pp, fp⟩ cfg4.state 4 hc4'
  have hOnly : ∀ j cfg, traceEngine ⟨.ok d, .ok a, .ok m, g, pp, fp⟩ j = some cfg →
      WFNode.display_on_github ∈ cfg.active → j = 3 := by
    intro j cfg h hd
    rcases j with _ | (_ | (_ | (_ | j)))
    · have := traceActive_of _ _ _ h
      rw [hA0] at this
      have hac : cfg.active = [WFNode.start] := by simpa using this.symm
      rw [hac] at hd; simp at hd
    · have := traceActive_of _ _ _ h
      rw [hA1] at this
      have hac : cfg.active =
          [WFNode.read_document_content, WFNode.lsp_diagnostics,
           WFNode.retrieval_vector_database] := by simpa using this.symm
      rw [hac] at hd; simp at hd
    · have := traceActive_of _ _ _ h
      rw [hA2] at this
      have hac : cfg.active = [WFNode.llm_diagnostics] := by simpa using this.symm
      rw [hac] at hd; simp at hd
    · rfl
    · have hidx : j + 1 + 1 + 1 + 1 = 4 + j := by omega
      rw [hidx, hstab j] at h
      injection h with h'
      rw [← h'] at hd
      simp at hd
  refine ⟨?_, ?_⟩
  · intro n cfg h hd
    have h3 := hOnly n cfg h hd
    subst h3
    have hfl := traceFlags_of _ _ _ h
    rw [hF3] at hfl
    have := hfl.symm
    simp only [Option.some_inj, Prod.mk.injEq] at this
    exact ⟨this.1, this.2.1, this.2.2⟩
  · intro m n cm cn hm hdm hn hdn
    rw [hOnly m cm hm hdm, hOnly n cn hn hdn]

/-- Witness for C1: in the concrete all-successful run the publish node is
entered (at superstep 3) with every gating flag true. -/
theorem workflow_terminal_once_witness :
    ∃ cfg, traceEngine envC1 3 = some cfg ∧ WFNode.display_on_github ∈ cfg.active ∧
      cfg.state.is_document_read = true ∧ cfg.state.is_code_retrieved = true ∧
      cfg.state.is_lsp_diagnosed = true := by
  have hA : traceActive envC1 3 = some [.display_on_github] := rfl
  cases hc : traceEngine envC1 3 with
  | none => rw [traceActive, hc] at hA; cases hA
  | some cfg =>
    rw [traceActive, hc] at hA
    have hd : WFNode.display_on_github ∈ cfg.active := by
      have hac : cfg.active = [WFNode.display_on_github] := by simpa using hA
      rw [hac]; simp
    have h := (workflow_terminal_once envC1).1 3 cfg hc hd
    exact ⟨cfg, rfl, hd, h.1, h.2.1, h.2.2⟩

/-! ## Digit-string lemmas -/

theorem char_toNat_ofNat_valid (n : Nat) (h : n.isValidChar) :
    (Char.ofNat n).toNat = n := by
  rw [Char.ofNat, dif_pos h]
  rfl

theorem char_toNat_ofNat_lt (n : Nat) (h : n < 55296) :
    (Char.ofNat n).toNat = n :=
  char_toNat_ofNat_valid n (Or.inl h)

theorem digitCh_toNat (n : Nat) (h : n < 10) : (digitCh n).toNat = 48 + n :=
  char_toNat_ofNat_lt _ (by omega)

theorem isDigitCh_digitCh (n : Nat) (h : n < 10) : isDigitCh (digitCh n) = true := by
  simp [isDigitCh, digitCh_toNat n h]
  omega

theorem digitVal_digitCh (n : Nat) (h : n < 10) : digitVal (digitCh n) = n := by
  simp [digitVal, digitCh_toNat n h]

theorem digitsVal_append_one (xs : List Char) (c : Char) :
    digitsVal (xs ++ [c]) = digitsVal xs * 10 + digitVal c := by
  simp [digitsVal, List.foldl_append]

theorem natDigitsAux_spec (fuel : Nat) :
    ∀ n, n < fuel →
      (natDigitsAux fuel n).all isDigitCh = true ∧
      natDigitsAux fuel n ≠ [] ∧
      digitsVal (natDigitsAux fuel n) = n ∧
      (0 < n → (natDigitsAux fuel n).head? ≠ some '0') := by
  induction fuel with
  | zero => intro n hn; omega
  | succ fuel ih =>
    intro n hn
    by_cases h10 : n < 10
    · refine ⟨?_, ?_, ?_, ?_⟩
      · simp [natDigitsAux, h10, isDigitCh_digitCh n h10]
      · simp [natDigitsAux, h10]
      · simp [natDigitsAux, h10, digitsVal, digitVal_digitCh n h10]
      · intro h0
        simp only [natDigitsAux, if_pos h10, List.head?]
        intro he
        have hc : digitCh n = '0' := by simpa using he
        have := congrArg Char.toNat hc
        rw [digitCh_toNat n h10] at this
        have h48 : '0'.toNat = 48 := rfl
        rw [h48] at this
        omega
    · have hdiv : n / 10 < fuel := by omega
      obtain ⟨hall, hne, hval, hhd⟩ := ih (n / 10) hdiv
      have hd10 : n % 10 < 10 := Nat.mod_lt _ (by omega)
      refine ⟨?_, ?_, ?_, ?_⟩
      · simp [natDigitsAux, h10, List.all_append, hall, isDigitCh_digitCh _ hd10]
      · simp [natDigitsAux, h10]
      · rw [show natDigitsAux (fuel + 1) n =
            natDigitsAux fuel (n / 10) ++ [digitCh (n % 10)] by simp [natDigitsAux, h10]]
        rw [digitsVal_append_one, hval, digitVal_digitCh _ hd10]
        omega
      · intro h0
        rw [show natDigitsAux (fuel + 1) n =
            natDigitsAux fuel (n / 10) ++ [digitCh (n % 10)] by simp [natDigitsAux, h10]]
        cases hds : natDigitsAux fuel (n / 10) with
        | nil => exact absurd hds hne
        | cons c cs =>
          have := hhd (by omega)
          rw [hds] at this
          simpa using this

theorem natToChars_all (n : Nat) : (natToChars n).all isDigitCh = true :=
  (natDigitsAux_spec (n + 1) n (by omega)).1

theorem natToChars_ne_nil (n : Nat) : natToChars n ≠ [] :=
  (natDigitsAux_spec (n + 1) n (by omega)).2.1

theorem digitsVal_natToChars (n : Nat) : digitsVal (natToChars n) = n :=
  (natDigitsAux_spec (n + 1) n (by omega)).2.2.1

theorem natToChars_head_ne_zero (n : Nat) (h : 0 < n) :
    (natToChars n).head? ≠ some '0' :=
  (natDigitsAux_spec (n + 1) n (by omega)).2.2.2 h

theorem takeDigits_append (ds rest : List Char) (h : ds.all isDigitCh = true)
    (hr : digitStart rest = false) : takeDigits (ds ++ rest) = (ds, rest) := by
  induction ds with
  | nil =>
    cases rest with
    | nil => rfl
    | cons c cs =>
      simp [digitStart] at hr
      simp [takeDigits, hr]
  | cons c cs ih =>
    simp only [List.all_cons, Bool.and_eq_true] at h
    simp [takeDigits, h.1, ih h.2]

/-- A digit is not one of the characters the number machinery branches
on. -/
theorem isDigitCh_facts (c : Char) (h : isDigitCh c = true) :
    c ≠ '-' ∧ c ≠ '+' ∧ c ≠ '.' ∧ c ≠ 'e' ∧ c ≠ 'E' ∧ c ≠ dquote ∧ c ≠ bslash ∧
      c ≠ '[' ∧ c ≠ lcurl ∧ c ≠ 't' ∧ c ≠ 'f' ∧ c ≠ 'n' ∧ c ≠ ']' ∧ c ≠ rcurl ∧
      isWsJson c = false ∧ c ≠ ':' ∧ c ≠ '\n' := by
  simp only [isDigitCh, Bool.and_eq_true, decide_eq_true_eq] at h
  have hne : ∀ d : Char, (48 ≤ d.toNat ∧ d.toNat ≤ 57 → False) → c ≠ d := by
    intro d hd he
    subst he
    exact hd h
  refine ⟨hne _ (by decide), hne _ (by decide), hne _ (by decide), hne _ (by decide),
    hne _ (by decide), hne _ (by decide), hne _ (by decide), hne _ (by decide),
    hne _ (by decide), hne _ (by decide), hne _ (by decide), hne _ (by decide),
    hne _ (by decide), hne _ (by decide), ?_, hne _ (by decide), hne _ (by decide)⟩
  simp only [isWsJson, Bool.or_eq_false_iff, decide_eq_false_iff_not]
  exact ⟨⟨⟨hne _ (by decide), hne _ (by decide)⟩, hne _ (by decide)⟩, hne _ (by decide)⟩

theorem digitStart_of_fracStart (rest : List Char) (h : fracStart rest = false) :
    digitStart rest = false := by
  cases rest with
  | nil => rfl
  | cons c cs =>
    simp only [fracStart, Bool.or_eq_false_iff] at h
    simpa [digitStart] using h.1.1.1

theorem natToChars_zero : natToChars 0 = ['0'] := rfl

theorem parseJsonNat_natToChars (n : Nat) (rest : List Char) (hr : fracStart rest = false) :
    parseJsonNat (natToChars n ++ rest) = some (n, rest) := by
  rcases Nat.eq_zero_or_pos n with h0 | h0
  · subst h0
    simp [natToChars_zero, parseJsonNat, hr]
  · cases hds : natToChars n with
    | nil => exact absurd hds (natToChars_ne_nil n)
    | cons c cs =>
      have hall : (c :: cs).all isDigitCh = true := by rw [← hds]; exact natToChars_all n
      have hc : isDigitCh c = true := by
        simp only [List.all_cons, Bool.and_eq_true] at hall
        exact hall.1
      have hc0 : c ≠ '0' := by
        have := natToChars_head_ne_zero n h0
        rw [hds] at this
        simpa using this
      have htake : takeDigits ((c :: cs) ++ rest) = (c :: cs, rest) :=
        takeDigits_append _ _ hall (digitStart_of_fracStart rest hr)
      simp only [List.cons_append] at htake
      have hval : digitsVal (c :: cs) = n := by rw [← hds]; exact digitsVal_natToChars n
      simp [parseJsonNat, hc0, hc, htake, hr, hval]

theorem parseJsonInt_intToChars (i : Int) (rest : List Char) (hr : fracStart rest = false) :
    parseJsonInt (intToChars i ++ rest) = some (Json.int i, rest) := by
  cases i with
  | ofNat n =>
    cases hds : natToChars n with
    | nil => exact absurd hds (natToChars_ne_nil n)
    | cons c cs =>
      have hall : (c :: cs).all isDigitCh = true := by rw [← hds]; exact natToChars_all n
      have hc : isDigitCh c = true := by
        simp only [List.all_cons, Bool.and_eq_true] at hall
        exact hall.1
      have hpn := parseJsonNat_natToChars n rest hr
      rw [hds] at hpn
      simp only [List.cons_append] at hpn
      have hcm := (isDigitCh_facts c hc).1
      simp [intToChars, hds, parseJsonInt, hcm, hpn]
  | negSucc k =>
    have hpn := parseJsonNat_natToChars (k + 1) rest hr
    simp [intToChars, parseJsonInt, hpn, Int.negSucc_eq]

theorem pyToInt_digits (ds : List Char) (hne : ds ≠ []) (hall : ds.all isDigitCh = true) :
    pyToInt ds = some (digitsVal ds : Int) := by
  cases ds with
  | nil => exact absurd rfl hne
  | cons c cs =>
    have hc : isDigitCh c = true := by
      simp only [List.all_cons, Bool.and_eq_true] at hall
      exact hall.1
    have hf := isDigitCh_facts c hc
    simp [pyToInt, hf.1, hf.2.1, hall]

theorem hexVal_hexDigitLower (d : Nat) (h : d < 16) : hexVal (hexDigitLower d) = some d := by
  by_cases h10 : d < 10
  · have ht : (hexDigitLower d).toNat = 48 + d := by
      rw [hexDigitLower, if_pos h10]
      exact char_toNat_ofNat_lt _ (by omega)
    simp only [hexVal, ht]
    rw [if_pos (by simp only [Bool.and_eq_true, decide_eq_true_eq]; omega)]
    simp
  · have ht : (hexDigitLower d).toNat = 87 + d := by
      rw [hexDigitLower, if_neg h10]
      exact char_toNat_ofNat_lt _ (by omega)
    simp only [hexVal, ht]
    rw [if_neg (by simp only [Bool.and_eq_true, decide_eq_true_eq]; omega),
      if_pos (by simp only [Bool.and_eq_true, decide_eq_true_eq]; omega)]
    simp

theorem hex4Val_hex4 (n : Nat) (h : n < 65536) (rest : List Char) :
    hex4Val (hex4 n ++ rest) = some (n, rest) := by
  have h3 : n / 4096 % 16 < 16 := Nat.mod_lt _ (by omega)
  have h2 : n / 256 % 16 < 16 := Nat.mod_lt _ (by omega)
  have h1 : n / 16 % 16 < 16 := Nat.mod_lt _ (by omega)
  have h0 : n % 16 < 16 := Nat.mod_lt _ (by omega)
  simp only [hex4, List.cons_append, List.nil_append, hex4Val,
    hexVal_hexDigitLower _ h3, hexVal_hexDigitLower _ h2,
    hexVal_hexDigitLower _ h1, hexVal_hexDigitLower _ h0]
  have : n / 4096 % 16 * 4096 + n / 256 % 16 * 256 + n / 16 % 16 * 16 + n % 16 = n := by
    omega
  rw [this]

/-- A `Char`'s code point is never in the surrogate range. -/
theorem char_valid_nat (c : Char) :
    c.toNat < 55296 ∨ (57343 < c.toNat ∧ c.toNat < 1114112) := by
  have hv := c.valid
  cases hv with
  | inl h =>
    exact Or.inl (UInt32.toNat_lt_of_lt (by decide) h)
  | inr h =>
    exact Or.inr ⟨UInt32.lt_toNat_of_lt (by decide) h.1,
      UInt32.toNat_lt_of_lt (by decide) h.2⟩


theorem parseStrBody_quote (fuel : Nat) (cs : List Char) :
    parseStrBody (fuel + 1) ('"' :: cs) = some ([], cs) := rfl

theorem parseStrBody_plain (fuel : Nat) (c : Char) (cs : List Char)
    (h1 : ¬c = '"') (h2 : ¬c = '\\') (h3 : 32 ≤ c.toNat) :
    parseStrBody (fuel + 1) (c :: cs) =
      (parseStrBody fuel cs).map (fun p => (c :: p.1, p.2)) := by
  have h1' : ¬c = dquote := by simpa [dquote] using h1
  have h2' : ¬c = bslash := by simpa [bslash] using h2
  simp only [parseStrBody, if_neg h1', if_neg h2', if_pos h3]

theorem parseStrBody_esc_quote (fuel : Nat) (cs : List Char) :
    parseStrBody (fuel + 1) ('\\' :: '"' :: cs) =
      (parseStrBody fuel cs).map (fun p => ('"' :: p.1, p.2)) := rfl

theorem parseStrBody_esc_bslash (fuel : Nat) (cs : List Char) :
    parseStrBody (fuel + 1) ('\\' :: '\\' :: cs) =
      (parseStrBody fuel cs).map (fun p => ('\\' :: p.1, p.2)) := rfl

theorem parseStrBody_esc_b (fuel : Nat) (cs : List Char) :
    parseStrBody (fuel + 1) ('\\' :: 'b' :: cs) =
      (parseStrBody fuel cs).map (fun p => (Char.ofNat 8 :: p.1, p.2)) := rfl

theorem parseStrBody_esc_f (fuel : Nat) (cs : List Char) :
    parseStrBody (fuel + 1) ('\\' :: 'f' :: cs) =
      (parseStrBody fuel cs).map (fun p => (Char.ofNat 12 :: p.1, p.2)) := rfl

theorem parseStrBody_esc_n (fuel : Nat) (cs : List Char) :
    parseStrBody (fuel + 1) ('\\' :: 'n' :: cs) =
      (parseStrBody fuel cs).map (fun p => ('\n' :: p.1, p.2)) := rfl

theorem parseStrBody_esc_r (fuel : Nat) (cs : List Char) :
    parseStrBody (fuel + 1) ('\\' :: 'r' :: cs) =
      (parseStrBody fuel cs).map (fun p => ('\r' :: p.1, p.2)) := rfl

theorem parseStrBody_esc_t (fuel : Nat) (cs : List Char) :
    parseStrBody (fuel + 1) ('\\' :: 't' :: cs) =
      (parseStrBody fuel cs).map (fun p => ('\t' :: p.1, p.2)) := rfl

theorem parseStrBody_esc_u (fuel : Nat) (rest rest' : List Char) (n : Nat)
    (hx : hex4Val rest = some (n, rest'))
    (hn : n < 55296 ∨ 57344 ≤ n) :
    parseStrBody (fuel + 1) ('\\' :: 'u' :: rest) =
      (parseStrBody fuel rest').map (fun p => (Char.ofNat n :: p.1, p.2)) := by
  simp only [parseStrBody, hx]
  simp +decide [dquote, bslash]
  intro ha hb
  exact absurd hn (by omega)

theorem parseStrBody_esc_u_pair (fuel : Nat) (rest rest2 rest3 : List Char) (n n2 : Nat)
    (hx : hex4Val rest = some (n, '\\' :: 'u' :: rest2))
    (hn1 : 55296 ≤ n) (hn2 : n < 56320)
    (hx2 : hex4Val rest2 = some (n2, rest3))
    (hm1 : 56320 ≤ n2) (hm2 : n2 < 57344) :
    parseStrBody (fuel + 1) ('\\' :: 'u' :: rest) =
      (parseStrBody fuel rest3).map
        (fun p => (Char.ofNat (65536 + (n - 55296) * 1024 + (n2 - 56320)) :: p.1, p.2)) := by
  simp only [parseStrBody, hx, hx2]
  simp +decide [dquote, bslash]
  rw [if_neg (show ¬(n < 55296 ∨ 57344 ≤ n) by omega),
    if_pos (show n < 56320 from hn2),
    if_pos (show 56320 ≤ n2 ∧ n2 < 57344 from ⟨hm1, hm2⟩)]

theorem parseStrBody_escape (s : PyStr) :
    ∀ fuel rest, s.length + 1 ≤ fuel →
      parseStrBody fuel (escapeStr s ++ '"' :: rest) = some (s, rest) := by
  induction s with
  | nil =>
    intro fuel rest hf
    cases fuel with
    | zero => omega
    | succ fuel =>
      show parseStrBody (fuel + 1) ([] ++ '"' :: rest) = some ([], rest)
      rw [List.nil_append, parseStrBody_quote]
  | cons c cs ih =>
    intro fuel rest hf
    cases fuel with
    | zero => simp at hf
    | succ fuel =>
    have hih := ih fuel rest (by simp at hf ⊢; omega)
    have hesc : escapeStr (c :: cs) = escapeChar c ++ escapeStr cs := by
      simp [escapeStr]
    rw [hesc, List.append_assoc]
    by_cases h1 : c = '"'
    · subst h1
      rw [show escapeChar '"' = ['\\', '"'] from rfl]
      simp only [List.cons_append, List.nil_append]
      rw [parseStrBody_esc_quote, hih]
      rfl
    by_cases h2 : c = '\\'
    · subst h2
      rw [show escapeChar '\\' = ['\\', '\\'] from rfl]
      simp only [List.cons_append, List.nil_append]
      rw [parseStrBody_esc_bslash, hih]
      rfl
    have h1' : ¬c = dquote := by simpa [dquote] using h1
    have h2' : ¬c = bslash := by simpa [bslash] using h2
    by_cases h3 : c.toNat = 8
    · rw [show escapeChar c = ['\\', 'b'] by
        simp [escapeChar, h1, h2, h1', h2', h3, bslash]]
      simp only [List.cons_append, List.nil_append]
      rw [parseStrBody_esc_b, hih, show Char.ofNat 8 = c from h3 ▸ Char.ofNat_toNat c]
      rfl
    by_cases h4 : c.toNat = 12
    · rw [show escapeChar c = ['\\', 'f'] by
        simp [escapeChar, h1, h2, h1', h2', h3, h4, bslash]]
      simp only [List.cons_append, List.nil_append]
      rw [parseStrBody_esc_f, hih, show Char.ofNat 12 = c from h4 ▸ Char.ofNat_toNat c]
      rfl
    by_cases h5 : c = '\n'
    · subst h5
      rw [show escapeChar '\n' = ['\\', 'n'] by simp [escapeChar, dquote, bslash]]
      simp only [List.cons_append, List.nil_append]
      rw [parseStrBody_esc_n, hih]
      rfl
    by_cases h6 : c = '\r'
    · subst h6
      rw [show escapeChar '\r' = ['\\', 'r'] by simp [escapeChar, dquote, bslash]]
      simp only [List.cons_append, List.nil_append]
      rw [parseStrBody_esc_r, hih]
      rfl
    by_cases h7 : c = '\t'
    · subst h7
      rw [show escapeChar '\t' = ['\\', 't'] by simp [escapeChar, dquote, bslash]]
      simp only [List.cons_append, List.nil_append]
      rw [parseStrBody_esc_t, hih]
      rfl
    by_cases h8 : 32 ≤ c.toNat ∧ c.toNat ≤ 126
    · rw [show escapeChar c = [c] by
        simp [escapeChar, h1, h2, h1', h2', h3, h4, h5, h6, h7]; omega]
      simp only [List.cons_append, List.nil_append]
      rw [parseStrBody_plain fuel c _ h1 h2 h8.1, hih]
      rfl
    by_cases h9 : c.toNat < 65536
    · rw [show escapeChar c = bslash :: 'u' :: hex4 c.toNat by
        simp [escapeChar, h1, h2, h1', h2', h3, h4, h5, h6, h7, h9]; omega]
      have hsur := char_valid_nat c
      have hx := hex4Val_hex4 c.toNat h9 (escapeStr cs ++ '"' :: rest)
      simp only [bslash, List.cons_append, List.append_assoc]
      rw [parseStrBody_esc_u fuel _ _ _ hx (by omega), hih,
        Char.ofNat_toNat]
      rfl
    · rw [show escapeChar c =
          bslash :: 'u' :: hex4 (55296 + (c.toNat - 65536) / 1024) ++
            bslash :: 'u' :: hex4 (56320 + (c.toNat - 65536) % 1024) by
        simp [escapeChar, h1, h2, h1', h2', h3, h4, h5, h6, h7, h9]; omega]
      have hsur := char_valid_nat c
      have hlt : c.toNat < 1114112 := by omega
      have hhi : 55296 + (c.toNat - 65536) / 1024 < 65536 := by omega
      have hmlt := Nat.mod_lt (c.toNat - 65536) (show 0 < 1024 by omega)
      have hlo : 56320 + (c.toNat - 65536) % 1024 < 65536 := by omega
      have hx1 := hex4Val_hex4 _ hhi
        ('\\' :: 'u' :: (hex4 (56320 + (c.toNat - 65536) % 1024) ++ (escapeStr cs ++ '"' :: rest)))
      have hx2 := hex4Val_hex4 _ hlo (escapeStr cs ++ '"' :: rest)
      simp only [bslash, List.cons_append, List.append_assoc]
      rw [parseStrBody_esc_u_pair fuel _ _ _ _ _ hx1 (by omega) (by omega) hx2
        (by omega) (by omega), hih]
      have hre : 65536 + (55296 + (c.toNat - 65536) / 1024 - 55296) * 1024 +
          (56320 + (c.toNat - 65536) % 1024 - 56320) = c.toNat := by omega
      rw [hre, Char.ofNat_toNat]
      rfl

theorem escapeChar_length_pos (c : Char) : 1 ≤ (escapeChar c).length := by
  unfold escapeChar
  split_ifs <;> simp [hex4]

theorem escapeStr_length_ge (s : PyStr) : s.length ≤ (escapeStr s).length := by
  induction s with
  | nil => simp [escapeStr]
  | cons c cs ih =>
    have := escapeChar_length_pos c
    simp only [escapeStr, List.flatMap_cons, List.length_append, List.length_cons] at *
    omega

theorem parseStr_escape (k : PyStr) (rest : List Char) :
    parseStr (escapeStr k ++ '"' :: rest) = some (k, rest) := by
  apply parseStrBody_escape
  have := escapeStr_length_ge k
  simp only [List.length_append, List.length_cons]
  omega

/-! ### One-step reductions of `parseVal` -/

theorem parseVal_null (fuel : Nat) (rest : List Char) :
    parseVal (fuel + 1) ('n' :: 'u' :: 'l' :: 'l' :: rest) = some (.null, rest) := rfl

theorem parseVal_true (fuel : Nat) (rest : List Char) :
    parseVal (fuel + 1) ('t' :: 'r' :: 'u' :: 'e' :: rest) = some (.bool true, rest) := rfl

theorem parseVal_false (fuel : Nat) (rest : List Char) :
    parseVal (fuel + 1) ('f' :: 'a' :: 'l' :: 's' :: 'e' :: rest) = some (.bool false, rest) := rfl

theorem parseVal_str (fuel : Nat) (cs : List Char) :
    parseVal (fuel + 1) ('"' :: cs) =
      (parseStr cs).map (fun p => (Json.str p.1, p.2)) := rfl

theorem parseVal_minus (fuel : Nat) (cs : List Char) :
    parseVal (fuel + 1) ('-' :: cs) = parseJsonInt ('-' :: cs) := rfl

theorem parseVal_digit (fuel : Nat) (c : Char) (cs : List Char) (h : isDigitCh c = true) :
    parseVal (fuel + 1) (c :: cs) = parseJsonInt (c :: cs) := by
  obtain ⟨hm, hp, hdot, he, hE, hq, hb, hlb, hlc, ht, hf, hn, hrb, hrc, hws, hcol, hnl⟩ :=
    isDigitCh_facts c h
  simp only [parseVal, skipWs, List.dropWhile_cons, hws, Bool.false_eq_true, if_false]
  rw [if_neg (by simpa [dquote] using hq), if_neg hlb, if_neg hlc, if_neg ht, if_neg hf,
    if_neg hn, if_pos (by simp [h])]

theorem parseVal_arr_nil (fuel : Nat) (rest : List Char) :
    parseVal (fuel + 1) ('[' :: ']' :: rest) = some (.arr [], rest) := rfl

theorem parseVal_arr (fuel : Nat) (d : Char) (ds : List Char)
    (hws : isWsJson d = false) (hne : ¬d = ']') :
    parseVal (fuel + 1) ('[' :: d :: ds) =
      (parseElems fuel (d :: ds)).map (fun p => (Json.arr p.1, p.2)) := by
  have h2 : skipWs (d :: ds) = d :: ds := by
    simp [skipWs, List.dropWhile_cons, hws]
  simp only [parseVal]
  simp +decide [dquote, skipWs, List.dropWhile_cons, hws, hne]

theorem parseVal_obj_nil (fuel : Nat) (rest : List Char) :
    parseVal (fuel + 1) (lcurl :: rcurl :: rest) = some (.obj [], rest) := rfl

theorem parseVal_obj (fuel : Nat) (d : Char) (ds : List Char)
    (hws : isWsJson d = false) (hne : ¬d = rcurl) :
    parseVal (fuel + 1) (lcurl :: d :: ds) =
      (parseFields fuel (d :: ds)).map (fun p => (Json.obj (dictOfPairs p.1), p.2)) := by
  simp only [parseVal]
  simp +decide [dquote, lcurl, rcurl, skipWs, List.dropWhile_cons, hws]
  intro he
  exact absurd he (by simpa [rcurl] using hne)

theorem parseVal_eq_of_skipWs (fuel : Nat) (a b : List Char) (h : skipWs a = skipWs b) :
    parseVal fuel a = parseVal fuel b := by
  cases fuel with
  | zero => rfl
  | succ fuel =>
    simp only [parseVal]
    rw [h]

theorem parseElems_eq_of_skipWs (fuel : Nat) (a b : List Char) (h : skipWs a = skipWs b) :
    parseElems fuel a = parseElems fuel b := by
  cases fuel with
  | zero => rfl
  | succ fuel =>
    simp only [parseElems]
    rw [parseVal_eq_of_skipWs fuel a b h]

theorem parseFields_eq_of_skipWs (fuel : Nat) (a b : List Char) (h : skipWs a = skipWs b) :
    parseFields fuel a = parseFields fuel b := by
  cases fuel with
  | zero => rfl
  | succ fuel =>
    simp only [parseFields]
    rw [h]

theorem skipWs_cons_ws (c : Char) (x : List Char) (h : isWsJson c = true) :
    skipWs (c :: x) = skipWs x := by
  simp [skipWs, List.dropWhile_cons, h]

/-! ### The head of a rendered value -/

theorem dumpsVal_head (v : Json) :
    ∃ c cs, dumpsVal v = c :: cs ∧ isWsJson c = false ∧ c ≠ ']' := by
  cases v with
  | null => exact ⟨'n', _, rfl, by decide, by decide⟩
  | bool b =>
    cases b with
    | true => exact ⟨'t', _, rfl, by decide, by decide⟩
    | false => exact ⟨'f', _, rfl, by decide, by decide⟩
  | int n =>
    cases n with
    | ofNat m =>
      cases hds : natToChars m with
      | nil => exact absurd hds (natToChars_ne_nil m)
      | cons c cs =>
        have hall : (c :: cs).all isDigitCh = true := by rw [← hds]; exact natToChars_all m
        have hc : isDigitCh c = true := by
          simp only [List.all_cons, Bool.and_eq_true] at hall
          exact hall.1
        have hf := isDigitCh_facts c hc
        exact ⟨c, cs, by simp [dumpsVal, intToChars, hds], hf.2.2.2.2.2.2.2.2.2.2.2.2.2.2.1,
          hf.2.2.2.2.2.2.2.2.2.2.2.2.1⟩
    | negSucc k => exact ⟨'-', _, rfl, by decide, by decide⟩
  | str s =>
    exact ⟨'"', escapeStr s ++ [dquote], by simp [dumpsVal, dquote], by decide, by decide⟩
  | arr es =>
    cases es with
    | nil => exact ⟨'[', _, rfl, by decide, by decide⟩
    | cons e es => exact ⟨'[', _, rfl, by decide, by decide⟩
  | obj fs =>
    refine ⟨Char.ofNat 123, dumpsFields fs ++ [rcurl], by simp [dumpsVal, lcurl], by decide,
      by decide⟩

theorem skipWs_dumps (v : Json) (rest : List Char) :
    skipWs (dumpsVal v ++ rest) = dumpsVal v ++ rest := by
  obtain ⟨c, cs, hv, hws, _⟩ := dumpsVal_head v
  rw [hv]
  simp [skipWs, List.dropWhile_cons, hws]

/-! ### `dict(pairs)` on duplicate-free pairs -/

theorem contains_iff_mem {α : Type} [BEq α] [LawfulBEq α] (ks : List α) (k : α) :
    ks.contains k = true ↔ k ∈ ks := by
  induction ks with
  | nil => simp
  | cons a as ih =>
    simp only [List.contains_cons, Bool.or_eq_true, beq_iff_eq, List.mem_cons, ih]

theorem upsert_not_mem {β : Type} (m : List (PyStr × β)) (k : PyStr) (v : β)
    (h : ∀ p ∈ m, (p : PyStr × β).1 ≠ k) : upsert m k v = m ++ [(k, v)] := by
  induction m with
  | nil => rfl
  | cons p ps ih =>
    obtain ⟨k', v'⟩ := p
    simp only [upsert]
    rw [if_neg (h (k', v') (by simp)), ih (fun q hq => h q (by simp [hq]))]
    simp

theorem foldl_upsert_nodup (fs : List (PyStr × Json)) :
    ∀ acc : List (PyStr × Json), nodupKeys fs = true →
      (∀ p ∈ fs, ∀ q ∈ acc, (q : PyStr × Json).1 ≠ (p : PyStr × Json).1) →
      fs.foldl (fun m p => upsert m p.1 p.2) acc = acc ++ fs := by
  induction fs with
  | nil =>
    intro acc _ _
    simp
  | cons f fs ih =>
    intro acc hnd hdis
    obtain ⟨k, v⟩ := f
    simp only [nodupKeys, Bool.and_eq_true, Bool.not_eq_true'] at hnd
    have hk : upsert acc k v = acc ++ [(k, v)] :=
      upsert_not_mem acc k v (fun q hq => hdis (k, v) (by simp) q hq)
    have hkfs : ∀ p ∈ fs, (p : PyStr × Json).1 ≠ k := by
      intro p hp hpk
      have : k ∈ fs.map (·.1) := by
        exact hpk ▸ List.mem_map_of_mem _ hp
      have := (contains_iff_mem (fs.map (·.1)) k).2 this
      rw [hnd.1] at this
      exact Bool.false_ne_true this
    simp only [List.foldl_cons, hk]
    rw [ih (acc ++ [(k, v)]) hnd.2 ?_]
    · simp
    · intro p hp q hq
      rcases List.mem_append.1 hq with h1 | h1
      · exact hdis p (by simp [hp]) q h1
      · simp only [List.mem_singleton] at h1
        subst h1
        exact fun hc => hkfs p hp hc.symm

theorem dictOfPairs_eq_self (fs : List (PyStr × Json)) (h : nodupKeys fs = true) :
    dictOfPairs fs = fs := by
  have := foldl_upsert_nodup fs [] h (by intro p _ q hq; simp at hq)
  simpa [dictOfPairs] using this

/-! ### The fuel `jsonLoads` supplies covers the rendering's weight -/

mutual
theorem jweight_le_dumps (v : Json) : jweight v ≤ (dumpsVal v).length := by
  cases v with
  | null => simp [jweight, dumpsVal, pys]
  | bool b => cases b <;> simp [jweight, dumpsVal, pys]
  | int n =>
    have := natToChars_ne_nil n.natAbs
    cases n with
    | ofNat m =>
      have h := natToChars_ne_nil m
      have : 1 ≤ (natToChars m).length := by
        cases hm : natToChars m with
        | nil => exact absurd hm h
        | cons a as => simp
      simpa [jweight, dumpsVal, intToChars] using this
    | negSucc k => simp [jweight, dumpsVal, intToChars]
  | str s => simp [jweight, dumpsVal]
  | arr es =>
    cases es with
    | nil => simp [jweight, jweightElems, dumpsVal, dumpsElems]
    | cons e es =>
      have h := jweightElems_le_dumps (e :: es)
      simp only [jweight, dumpsVal, List.length_cons, List.length_append,
        List.length_singleton]
      omega
  | obj fs =>
    cases fs with
    | nil => simp [jweight, jweightFields, dumpsVal, dumpsFields]
    | cons f fs =>
      have h := jweightFields_le_dumps (f :: fs)
      simp only [jweight, dumpsVal, List.length_cons, List.length_append,
        List.length_singleton]
      omega

theorem jweightElems_le_dumps (es : List Json) :
    jweightElems es ≤ (dumpsElems es).length + 1 := by
  cases es with
  | nil => simp [jweightElems, dumpsElems]
  | cons e es =>
    cases es with
    | nil =>
      have h := jweight_le_dumps e
      simp only [jweightElems, dumpsElems, Nat.max_eq_left (Nat.zero_le _)]
      omega
    | cons e' es =>
      have h1 := jweight_le_dumps e
      have h2 := jweightElems_le_dumps (e' :: es)
      simp only [jweightElems] at h2
      simp only [jweightElems, dumpsElems, List.length_append, List.length_cons]
      omega

theorem jweightFields_le_dumps (fs : List (PyStr × Json)) :
    jweightFields fs ≤ (dumpsFields fs).length + 1 := by
  cases fs with
  | nil => simp [jweightFields, dumpsFields]
  | cons f fs =>
    obtain ⟨k, v⟩ := f
    cases fs with
    | nil =>
      have h := jweight_le_dumps v
      simp only [jweightFields, dumpsFields, Nat.max_eq_left (Nat.zero_le _),
        List.length_cons, List.length_append]
      omega
    | cons f' fs =>
      have h1 := jweight_le_dumps v
      have h2 := jweightFields_le_dumps (f' :: fs)
      simp only [jweightFields] at h2
      simp only [jweightFields, dumpsFields, List.length_cons, List.length_append]
      omega
end

theorem jweight_pos (v : Json) : 1 ≤ jweight v := by
  cases v <;> simp [jweight]

theorem dumpsElems_head (e : Json) (es : List Json) :
    ∃ c cs, dumpsElems (e :: es) = c :: cs ∧ isWsJson c = false ∧ c ≠ ']' := by
  obtain ⟨c, cs, he, hws, hne⟩ := dumpsVal_head e
  cases es with
  | nil => exact ⟨c, cs, by simp [dumpsElems, he], hws, hne⟩
  | cons e' es' =>
    exact ⟨c, cs ++ ',' :: ' ' :: dumpsElems (e' :: es'), by simp [dumpsElems, he], hws, hne⟩

theorem dumpsFields_head (g : PyStr × Json) (fs : List (PyStr × Json)) :
    ∃ t, dumpsFields (g :: fs) = dquote :: t := by
  obtain ⟨k, v⟩ := g
  cases fs with
  | nil => exact ⟨_, rfl⟩
  | cons g2 fs2 => exact ⟨_, rfl⟩

/-! ### The round-trip `loads (dumps v) = v` -/

mutual
theorem rtVal (v : Json) (fuel : Nat) (rest : List Char) (hwf : jsonWF v = true)
    (hfuel : jweight v ≤ fuel) (hrest : fracStart rest = false) :
    parseVal fuel (dumpsVal v ++ rest) = some (v, rest) := by
  obtain ⟨f, rfl⟩ : ∃ f, fuel = f + 1 :=
    ⟨fuel - 1, by have := jweight_pos v; omega⟩
  cases v with
  | null =>
    have h : dumpsVal .null ++ rest = 'n' :: 'u' :: 'l' :: 'l' :: rest := rfl
    rw [h, parseVal_null]
  | bool b =>
    cases b with
    | true =>
      have h : dumpsVal (.bool true) ++ rest = 't' :: 'r' :: 'u' :: 'e' :: rest := rfl
      rw [h, parseVal_true]
    | false =>
      have h : dumpsVal (.bool false) ++ rest = 'f' :: 'a' :: 'l' :: 's' :: 'e' :: rest := rfl
      rw [h, parseVal_false]
  | int n =>
    cases n with
    | ofNat m =>
      cases hds : natToChars m with
      | nil => exact absurd hds (natToChars_ne_nil m)
      | cons c cs =>
        have hc : isDigitCh c = true := by
          have hall := natToChars_all m
          rw [hds] at hall
          simp only [List.all_cons, Bool.and_eq_true] at hall
          exact hall.1
        have hsh : dumpsVal (.int (.ofNat m)) ++ rest = c :: (cs ++ rest) := by
          simp [dumpsVal, intToChars, hds]
        rw [hsh, parseVal_digit f c (cs ++ rest) hc]
        have hback : c :: (cs ++ rest) = intToChars (.ofNat m) ++ rest := by
          simp [intToChars, hds]
        rw [hback, parseJsonInt_intToChars _ rest hrest]
    | negSucc k =>
      have hsh : dumpsVal (.int (.negSucc k)) ++ rest =
          '-' :: (natToChars (k + 1) ++ rest) := by
        simp [dumpsVal, intToChars]
      rw [hsh, parseVal_minus]
      have hback : '-' :: (natToChars (k + 1) ++ rest) = intToChars (.negSucc k) ++ rest := by
        simp [intToChars]
      rw [hback, parseJsonInt_intToChars _ rest hrest]
  | str s =>
    have hsh : dumpsVal (.str s) ++ rest = '"' :: (escapeStr s ++ '"' :: rest) := by
      simp [dumpsVal, dquote]
    rw [hsh, parseVal_str, parseStr_escape]
    rfl
  | arr es =>
    cases es with
    | nil =>
      have hsh : dumpsVal (.arr []) ++ rest = '[' :: ']' :: rest := rfl
      rw [hsh, parseVal_arr_nil]
    | cons e es =>
      simp only [jsonWF] at hwf
      simp only [jweight] at hfuel
      obtain ⟨c, cs, hd, hws, hne⟩ := dumpsElems_head e es
      have hin : dumpsVal (.arr (e :: es)) ++ rest = '[' :: c :: (cs ++ ']' :: rest) := by
        simp [dumpsVal, hd]
      rw [hin, parseVal_arr f c _ hws hne]
      have hback : c :: (cs ++ ']' :: rest) = dumpsElems (e :: es) ++ ']' :: rest := by
        simp [hd]
      rw [hback, rtElems e es f rest hwf (by omega)]
      rfl
  | obj fs =>
    cases fs with
    | nil =>
      have hsh : dumpsVal (.obj []) ++ rest = lcurl :: rcurl :: rest := rfl
      rw [hsh, parseVal_obj_nil]
    | cons g fs =>
      simp only [jsonWF, Bool.and_eq_true] at hwf
      simp only [jweight] at hfuel
      obtain ⟨t, ht⟩ := dumpsFields_head g fs
      have hin : dumpsVal (.obj (g :: fs)) ++ rest =
          lcurl :: dquote :: (t ++ rcurl :: rest) := by
        simp [dumpsVal, ht]
      rw [hin, parseVal_obj f dquote _ (by decide) (by decide)]
      have hback : dquote :: (t ++ rcurl :: rest) =
          dumpsFields (g :: fs) ++ rcurl :: rest := by
        simp [ht]
      have hrt := rtFields g.1 g.2 fs f rest (by rw [Prod.mk.eta]; exact hwf.2)
        (by rw [Prod.mk.eta]; omega)
      rw [Prod.mk.eta] at hrt
      rw [hback, hrt]
      simp [dictOfPairs_eq_self (g :: fs) hwf.1]
termination_by sizeOf v
decreasing_by
  all_goals subst_vars
  · simp_wf
    omega
  · obtain ⟨k0, v0⟩ := g
    simp_wf
    omega

theorem rtElems (e : Json) (es : List Json) (fuel : Nat) (rest : List Char)
    (hwf : jsonWFElems (e :: es) = true) (hfuel : jweightElems (e :: es) ≤ fuel) :
    parseElems fuel (dumpsElems (e :: es) ++ ']' :: rest) = some (e :: es, rest) := by
  obtain ⟨f, rfl⟩ : ∃ f, fuel = f + 1 :=
    ⟨fuel - 1, by simp only [jweightElems] at hfuel; omega⟩
  simp only [jsonWFElems, Bool.and_eq_true] at hwf
  simp only [jweightElems] at hfuel
  cases es with
  | nil =>
    have hin : dumpsElems [e] ++ ']' :: rest = dumpsVal e ++ ']' :: rest := by
      simp [dumpsElems]
    rw [hin]
    simp only [parseElems]
    simp only [jweightElems] at hfuel
    rw [rtVal e f (']' :: rest) hwf.1 (by omega) (by simp +decide [fracStart])]
    simp +decide [skipWs, List.dropWhile_cons]
  | cons e' es =>
    have hin : dumpsElems (e :: e' :: es) ++ ']' :: rest =
        dumpsVal e ++ (',' :: ' ' :: (dumpsElems (e' :: es) ++ ']' :: rest)) := by
      simp [dumpsElems]
    rw [hin]
    simp only [parseElems]
    rw [rtVal e f _ hwf.1 (by omega) (by simp +decide [fracStart])]
    have hsw : skipWs (',' :: ' ' :: (dumpsElems (e' :: es) ++ ']' :: rest)) =
        ',' :: ' ' :: (dumpsElems (e' :: es) ++ ']' :: rest) := by
      simp +decide [skipWs, List.dropWhile_cons]
    simp only [hsw]
    rw [parseElems_eq_of_skipWs f (' ' :: (dumpsElems (e' :: es) ++ ']' :: rest))
      (dumpsElems (e' :: es) ++ ']' :: rest) (skipWs_cons_ws ' ' _ (by decide))]
    rw [rtElems e' es f rest hwf.2 (by omega)]
    rfl
termination_by sizeOf e + sizeOf es

theorem rtFields (k : PyStr) (v : Json) (fs : List (PyStr × Json)) (fuel : Nat)
    (rest : List Char) (hwf : jsonWFFields ((k, v) :: fs) = true)
    (hfuel : jweightFields ((k, v) :: fs) ≤ fuel) :
    parseFields fuel (dumpsFields ((k, v) :: fs) ++ rcurl :: rest) = some ((k, v) :: fs, rest) := by
  obtain ⟨f, rfl⟩ : ∃ f, fuel = f + 1 :=
    ⟨fuel - 1, by simp only [jweightFields] at hfuel; omega⟩
  simp only [jsonWFFields, Bool.and_eq_true] at hwf
  simp only [jweightFields] at hfuel
  cases fs with
  | nil =>
    have hin : dumpsFields [(k, v)] ++ rcurl :: rest =
        dquote :: (escapeStr k ++ '"' :: (':' :: ' ' :: (dumpsVal v ++ rcurl :: rest))) := by
      simp [dumpsFields, dquote]
    have hps := parseStr_escape k (':' :: ' ' :: (dumpsVal v ++ rcurl :: rest))
    have hpv : parseVal f (' ' :: (dumpsVal v ++ rcurl :: rest)) = some (v, rcurl :: rest) := by
      rw [parseVal_eq_of_skipWs f (' ' :: (dumpsVal v ++ rcurl :: rest))
        (dumpsVal v ++ rcurl :: rest) (skipWs_cons_ws ' ' _ (by decide))]
      exact rtVal v f (rcurl :: rest) hwf.1 (by simp only [jweightFields] at hfuel; omega)
        (by simp +decide [fracStart, rcurl])
    have hsw : skipWs (dquote :: (escapeStr k ++ '"' ::
        (':' :: ' ' :: (dumpsVal v ++ rcurl :: rest)))) =
        dquote :: (escapeStr k ++ '"' :: (':' :: ' ' :: (dumpsVal v ++ rcurl :: rest))) := by
      simp +decide [skipWs, List.dropWhile_cons, dquote]
    have hsw2 : skipWs (':' :: ' ' :: (dumpsVal v ++ rcurl :: rest)) =
        ':' :: ' ' :: (dumpsVal v ++ rcurl :: rest) := by
      simp +decide [skipWs, List.dropWhile_cons]
    have hsw3 : skipWs (rcurl :: rest) = rcurl :: rest := by
      simp +decide [skipWs, List.dropWhile_cons, rcurl]
    rw [hin]
    simp only [parseFields]
    simp +decide [hsw, hps, hsw2, hpv, hsw3]
  | cons g2 fs2 =>
    have hin : dumpsFields ((k, v) :: g2 :: fs2) ++ rcurl :: rest =
        dquote :: (escapeStr k ++ '"' :: (':' :: ' ' ::
          (dumpsVal v ++ ',' :: ' ' :: (dumpsFields (g2 :: fs2) ++ rcurl :: rest)))) := by
      simp [dumpsFields, dquote]
    have hps := parseStr_escape k (':' :: ' ' ::
      (dumpsVal v ++ ',' :: ' ' :: (dumpsFields (g2 :: fs2) ++ rcurl :: rest)))
    have hpv : parseVal f (' ' ::
        (dumpsVal v ++ ',' :: ' ' :: (dumpsFields (g2 :: fs2) ++ rcurl :: rest))) =
        some (v, ',' :: ' ' :: (dumpsFields (g2 :: fs2) ++ rcurl :: rest)) := by
      rw [parseVal_eq_of_skipWs f (' ' ::
        (dumpsVal v ++ ',' :: ' ' :: (dumpsFields (g2 :: fs2) ++ rcurl :: rest)))
        (dumpsVal v ++ ',' :: ' ' :: (dumpsFields (g2 :: fs2) ++ rcurl :: rest))
        (skipWs_cons_ws ' ' _ (by decide))]
      exact rtVal v f (',' :: ' ' :: (dumpsFields (g2 :: fs2) ++ rcurl :: rest))
        hwf.1 (by omega) (by simp +decide [fracStart])
    have hpf : parseFields f (' ' :: (dumpsFields (g2 :: fs2) ++ rcurl :: rest)) =
        some (g2 :: fs2, rest) := by
      rw [parseFields_eq_of_skipWs f (' ' :: (dumpsFields (g2 :: fs2) ++ rcurl :: rest))
        (dumpsFields (g2 :: fs2) ++ rcurl :: rest) (skipWs_cons_ws ' ' _ (by decide))]
      have h2 := rtFields g2.1 g2.2 fs2 f rest (by rw [Prod.mk.eta]; exact hwf.2)
        (by rw [Prod.mk.eta]; omega)
      rw [Prod.mk.eta] at h2
      exact h2
    have hsw : skipWs (dquote :: (escapeStr k ++ '"' :: (':' :: ' ' ::
        (dumpsVal v ++ ',' :: ' ' :: (dumpsFields (g2 :: fs2) ++ rcurl :: rest))))) =
        dquote :: (escapeStr k ++ '"' :: (':' :: ' ' ::
        (dumpsVal v ++ ',' :: ' ' :: (dumpsFields (g2 :: fs2) ++ rcurl :: rest)))) := by
      simp +decide [skipWs, List.dropWhile_cons, dquote]
    have hsw2 : skipWs (':' :: ' ' ::
        (dumpsVal v ++ ',' :: ' ' :: (dumpsFields (g2 :: fs2) ++ rcurl :: rest))) =
        ':' :: ' ' :: (dumpsVal v ++ ',' :: ' ' :: (dumpsFields (g2 :: fs2) ++ rcurl :: rest)) := by
      simp +decide [skipWs, List.dropWhile_cons]
    have hsw3 : skipWs (',' :: ' ' :: (dumpsFields (g2 :: fs2) ++ rcurl :: rest)) =
        ',' :: ' ' :: (dumpsFields (g2 :: fs2) ++ rcurl :: rest) := by
      simp +decide [skipWs, List.dropWhile_cons]
    rw [hin]
    simp only [parseFields]
    simp +decide [hsw, hps, hsw2, hpv, hsw3, hpf]
termination_by sizeOf v + sizeOf fs
decreasing_by
  all_goals subst_vars
  all_goals try (obtain ⟨k2, v2⟩ := g2)
  all_goals simp_wf
  all_goals omega
end

theorem jsonLoads_dumps (m : Json) (h : jsonWF m = true) :
    jsonLoads (jsonDumps m) = some m := by
  have hfuel : jweight m ≤ (dumpsVal m).length + 1 :=
    le_trans (jweight_le_dumps m) (by omega)
  have hrt := rtVal m ((dumpsVal m).length + 1) [] h hfuel (by simp [fracStart])
  rw [List.append_nil] at hrt
  simp [jsonLoads, jsonDumps, hrt, skipWs]

/-! ### Reading back a rendered header block -/

theorem splitNl_append (xs rest : List Char) (h : '\n' ∉ xs) :
    splitNl (xs ++ '\n' :: rest) = some (xs ++ ['\n'], rest) := by
  induction xs with
  | nil => simp [splitNl]
  | cons c cs ih =>
    simp only [List.mem_cons, not_or] at h
    simp only [List.cons_append, splitNl, List.append_eq]
    rw [if_neg (Ne.symm h.1), ih h.2]

theorem readLine_line (xs rest : List Char) (chs : List (List Char)) (h : '\n' ∉ xs) :
    readLine ⟨xs ++ '\n' :: rest, chs⟩ = (xs ++ ['\n'], ⟨rest, chs⟩) := by
  cases chs with
  | nil => simp [readLine, readLineAux, splitNl_append xs rest h]
  | cons ch chs => simp [readLine, readLineAux, splitNl_append xs rest h]

theorem length_dropWhile_le_ws (l : List Char) : (l.dropWhile isWsJson).length ≤ l.length := by
  induction l with
  | nil => simp
  | cons c cs ih =>
    rw [List.dropWhile_cons]
    split_ifs
    · exact le_trans ih (by simp)
    · simp

theorem dropWhile_append_self (l X : List Char) (hne : l ≠ [])
    (hl : l.dropWhile isWsJson = l) : (l ++ X).dropWhile isWsJson = l ++ X := by
  cases l with
  | nil => exact absurd rfl hne
  | cons c cs =>
    have hc : isWsJson c = false := by
      by_contra hw
      simp only [Bool.not_eq_false] at hw
      rw [List.dropWhile_cons, if_pos hw] at hl
      have h1 := congrArg List.length hl
      have h2 := length_dropWhile_le_ws cs
      simp only [List.length_cons] at h1
      omega
    simp [List.dropWhile_cons, hc]

theorem dropWhile_eq_nil_of_all (t : List Char) (ht : t.all isWsJson = true) :
    t.dropWhile isWsJson = [] := by
  induction t with
  | nil => rfl
  | cons c cs ih =>
    simp only [List.all_cons, Bool.and_eq_true] at ht
    simp [List.dropWhile_cons, ht.1, ih ht.2]

theorem pyStripEnd_append_ws (A t : List Char) (ht : t.all isWsJson = true) :
    pyStripEnd (A ++ t) = pyStripEnd A := by
  have h1 : t.reverse.dropWhile isWsJson = [] :=
    dropWhile_eq_nil_of_all t.reverse (by rwa [List.all_reverse])
  simp [pyStripEnd, List.reverse_append, List.dropWhile_append, h1]

theorem pyStripEnd_append_keep (A v : List Char) (hne : v ≠ [])
    (hv : pyStripEnd v = v) : pyStripEnd (A ++ v) = A ++ v := by
  have hrev : v.reverse.dropWhile isWsJson = v.reverse := by
    have h0 := congrArg List.reverse hv
    simpa [pyStripEnd] using h0
  have h2 : ¬(v.reverse.dropWhile isWsJson).isEmpty = true := by
    rw [hrev]
    simpa [List.isEmpty_iff] using hne
  unfold pyStripEnd
  rw [List.reverse_append, List.dropWhile_append, if_neg h2, hrev]
  simp

theorem splitColon_append (k tail : List Char) (h : ':' ∉ k) :
    splitColon (k ++ ':' :: tail) = (k, tail) := by
  induction k with
  | nil => simp [splitColon]
  | cons c cs ih =>
    simp only [List.mem_cons, not_or] at h
    simp only [List.cons_append, splitColon, List.append_eq]
    rw [if_neg (Ne.symm h.1), ih h.2]

theorem renderHeaders_length (hs : List (PyStr × PyStr)) :
    hs.length ≤ (renderHeaders hs).length := by
  induction hs with
  | nil => simp [renderHeaders]
  | cons p ps ih =>
    simp only [renderHeaders, List.flatMap_cons, List.length_append, List.length_cons] at *
    omega

theorem readHeadersLoop_render (hs : List (PyStr × PyStr)) :
    ∀ (acc : List (PyStr × PyStr)) (fuel : Nat) (rest : List Char) (chs : List (List Char)),
      hs.all goodHeader = true → hs.length + 1 ≤ fuel →
      readHeadersLoop fuel acc ⟨renderHeaders hs ++ '\r' :: '\n' :: rest, chs⟩ =
        .done (hs.foldl (fun m p => upsert m p.1 p.2) acc) ⟨rest, chs⟩ := by
  induction hs with
  | nil =>
    intro acc fuel rest chs _ hfuel
    obtain ⟨f, rfl⟩ : ∃ f, fuel = f + 1 := ⟨fuel - 1, by omega⟩
    have hrl : readLine ⟨renderHeaders ([] : List (PyStr × PyStr)) ++ '\r' :: '\n' :: rest, chs⟩ =
        (['\r', '\n'], ⟨rest, chs⟩) := by
      have hx := readLine_line ['\r'] rest chs (by decide)
      simpa [renderHeaders] using hx
    simp only [readHeadersLoop, hrl]
    simp +decide [pyStrip, pyStripEnd]
  | cons p hs ih =>
    intro acc fuel rest chs hgood hfuel
    obtain ⟨k, v⟩ := p
    obtain ⟨f, rfl⟩ : ∃ f, fuel = f + 1 := ⟨fuel - 1, by omega⟩
    simp only [List.all_cons, Bool.and_eq_true] at hgood
    obtain ⟨hg, hgoods⟩ := hgood
    simp only [goodHeader, Bool.and_eq_true, decide_eq_true_eq] at hg
    obtain ⟨⟨⟨⟨⟨⟨⟨⟨hk1, hk2⟩, hk3⟩, hk4⟩, hk5⟩, hv6⟩, hv7⟩, hv8⟩, hv9⟩ := hg
    have hnx : '\n' ∉ k ++ ':' :: ' ' :: (v ++ ['\r']) := by
      simp only [List.mem_append, List.mem_cons, List.mem_singleton, not_or]
      refine ⟨hk2, by decide, by decide, hv7, by decide⟩
    have hrl : readLine ⟨renderHeaders ((k, v) :: hs) ++ '\r' :: '\n' :: rest, chs⟩ =
        (k ++ ':' :: ' ' :: (v ++ ['\r', '\n']),
          ⟨renderHeaders hs ++ '\r' :: '\n' :: rest, chs⟩) := by
      have hx := readLine_line (k ++ ':' :: ' ' :: (v ++ ['\r']))
        (renderHeaders hs ++ '\r' :: '\n' :: rest) chs hnx
      have hbuf : renderHeaders ((k, v) :: hs) ++ '\r' :: '\n' :: rest =
          (k ++ ':' :: ' ' :: (v ++ ['\r'])) ++
            '\n' :: (renderHeaders hs ++ '\r' :: '\n' :: rest) := by
        simp [renderHeaders]
      rw [hbuf, hx]
      simp
    have hds : (k ++ ':' :: ' ' :: (v ++ ['\r', '\n'])).dropWhile isWsJson =
        k ++ ':' :: ' ' :: (v ++ ['\r', '\n']) :=
      dropWhile_append_self k _ hk1 hk4
    have hse : pyStripEnd (k ++ ':' :: ' ' :: (v ++ ['\r', '\n'])) = k ++ ':' :: ' ' :: v := by
      have h1 : k ++ ':' :: ' ' :: (v ++ ['\r', '\n']) = ((k ++ [':', ' ']) ++ v) ++ ['\r', '\n'] := by
        simp
      rw [h1, pyStripEnd_append_ws _ _ (by decide), pyStripEnd_append_keep _ v hv6 hv9]
      simp
    have hstrip : pyStrip (k ++ ':' :: ' ' :: (v ++ ['\r', '\n'])) = k ++ ':' :: ' ' :: v := by
      rw [pyStrip, hds, hse]
    have hcont : (k ++ ':' :: ' ' :: v).contains ':' = true :=
      (contains_iff_mem _ _).2 (by simp)
    have hsc : splitColon (k ++ ':' :: ' ' :: v) = (k, ' ' :: v) :=
      splitColon_append k (' ' :: v) hk3
    have hpk : pyStrip k = k := by
      simp [pyStrip, hk4, hk5]
    have hpv : pyStrip (' ' :: v) = v := by
      simp +decide [pyStrip, List.dropWhile_cons, hv8, hv9]
    have hrec := ih (upsert acc k v) f rest chs hgoods
      (by simp only [List.length_cons] at hfuel; omega)
    simp only [readHeadersLoop, hrl]
    simp [hstrip, hcont, hsc, hpk, hpv, hrec]

/-! ### Decoding one sent frame -/

theorem lookupA_upsert_ne {α β : Type} [DecidableEq α] (m : List (α × β)) (k key : α) (v : β)
    (h : k ≠ key) : lookupA (upsert m k v) key = lookupA m key := by
  induction m with
  | nil => simp [upsert, lookupA, h]
  | cons p rest ih =>
    obtain ⟨a, b⟩ := p
    by_cases hp : a = k
    · subst hp
      simp [upsert, lookupA, h]
    · simp [upsert, lookupA, hp, ih]

theorem lookupA_foldl_none (key : PyStr) (hs : List (PyStr × PyStr)) :
    ∀ acc, (∀ p ∈ hs, (p : PyStr × PyStr).1 ≠ key) → lookupA acc key = none →
      lookupA (hs.foldl (fun m p => upsert m p.1 p.2) acc) key = none := by
  induction hs with
  | nil =>
    intro acc _ h
    simpa using h
  | cons p ps ih =>
    intro acc hne hacc
    simp only [List.foldl_cons]
    exact ih (upsert acc p.1 p.2) (fun q hq => hne q (by simp [hq]))
      (by rw [lookupA_upsert_ne acc p.1 key p.2 (hne p (by simp))]; exact hacc)

theorem digits_dropWhile (ds : List Char) (h : ds.all isDigitCh = true) :
    ds.dropWhile isWsJson = ds := by
  cases ds with
  | nil => rfl
  | cons c cs =>
    simp only [List.all_cons, Bool.and_eq_true] at h
    have hws := (isDigitCh_facts c h.1).2.2.2.2.2.2.2.2.2.2.2.2.2.2.1
    simp [List.dropWhile_cons, hws]

theorem digits_stripEnd (ds : List Char) (h : ds.all isDigitCh = true) :
    pyStripEnd ds = ds := by
  have hrev : ds.reverse.all isDigitCh = true := by rwa [List.all_reverse]
  have h1 := digits_dropWhile ds.reverse hrev
  simp [pyStripEnd, h1]

theorem goodHeader_CL (ds : List Char) (hne : ds ≠ []) (hall : ds.all isDigitCh = true) :
    goodHeader (pys "Content-Length", ds) = true := by
  have h1 := digits_dropWhile ds hall
  have h2 := digits_stripEnd ds hall
  have h3 : '\n' ∉ ds := by
    intro hm
    have := List.all_eq_true.1 hall '\n' hm
    simp [isDigitCh] at this
  simp only [goodHeader, Bool.and_eq_true, decide_eq_true_eq]
  exact ⟨⟨⟨⟨⟨⟨⟨⟨by decide, by decide⟩, by decide⟩, by decide⟩, by decide⟩, hne⟩, h3⟩, h1⟩, h2⟩

theorem send_message_eq (m : Json) :
    send_message m =
      renderHeaders [(pys "Content-Length", natToChars (jsonDumps m).length)] ++
        '\r' :: '\n' :: jsonDumps m := by
  have hA : pys "Content-Length: " = pys "Content-Length" ++ [':', ' '] := by decide
  simp [send_message, renderHeaders, hA]

theorem send_message_len_pos (m : Json) : 1 ≤ (send_message m).length := by
  rw [send_message_eq]
  simp only [List.length_append, List.length_cons]
  omega

theorem readMessagesLoop_nil (fuel : Nat) : readMessagesLoop fuel ⟨[], []⟩ = ([], []) := by
  cases fuel with
  | zero => rfl
  | succ f =>
    have h : readHeaders ⟨[], []⟩ = .eof := rfl
    simp [readMessagesLoop, h]

theorem readHeaders_frame (m : Json) :
    readHeaders ⟨send_message m, []⟩ =
      .done [(pys "Content-Length", natToChars (jsonDumps m).length)] ⟨jsonDumps m, []⟩ := by
  have hgh : goodHeader (pys "Content-Length", natToChars (jsonDumps m).length) = true :=
    goodHeader_CL _ (natToChars_ne_nil _) (natToChars_all _)
  have htl : totalLen ⟨send_message m, []⟩ = (send_message m).length := by
    simp [totalLen]
  rw [readHeaders, htl, send_message_eq]
  rw [readHeadersLoop_render [(pys "Content-Length", natToChars (jsonDumps m).length)] []
    _ (jsonDumps m) [] (by simp [hgh])
    (by
      have h1 := renderHeaders_length [(pys "Content-Length", natToChars (jsonDumps m).length)]
      simp only [List.length_cons, List.length_nil, List.length_append] at h1 ⊢
      omega)]
  simp [upsert]

theorem readMessagesLoop_frame (m : Json) (hwf : jsonWF m = true) (f : Nat) :
    readMessagesLoop (f + 1) ⟨send_message m, []⟩ = ([m], [jsonDumps m]) := by
  have hlk : lookupA [(pys "Content-Length", natToChars (jsonDumps m).length)]
      (pys "Content-Length") = some (natToChars (jsonDumps m).length) := by
    simp [lookupA]
  have hpi : pyToInt (natToChars (jsonDumps m).length) = some ((jsonDumps m).length : Int) := by
    rw [pyToInt_digits _ (natToChars_ne_nil _) (natToChars_all _), digitsVal_natToChars]
  have hne : jsonDumps m ≠ [] := by
    obtain ⟨c, cs, hv, _, _⟩ := dumpsVal_head m
    simp [jsonDumps, hv]
  have hrb : readBytesInt ((jsonDumps m).length : Int) ⟨jsonDumps m, []⟩ =
      (jsonDumps m, ⟨[], []⟩) := by
    simp [readBytesInt, readBytes, hne]
  simp only [readMessagesLoop, readHeaders_frame m, hlk, hpi, hrb,
    jsonLoads_dumps m hwf, readMessagesLoop_nil]

/-- C5: for every JSON-serializable message `m` (a value with
duplicate-free object keys), `_send_message`'s byte frame, fed back through
`_read_messages`' framing parser, is decoded to exactly `m` and the payload
handed to `json.loads` is exactly the sent rendering. -/
theorem send_read_roundtrip (m : Json) (hm : jsonWF m = true) :
    decodedMessages ⟨send_message m, []⟩ = [m] ∧
      payloadsRead ⟨send_message m, []⟩ = [jsonDumps m] := by
  have h := readMessagesLoop_frame m hm (totalLen ⟨send_message m, []⟩)
  exact ⟨by simp [decodedMessages, read_messages, h],
    by simp [payloadsRead, read_messages, h]⟩

theorem send_read_roundtrip_witness :
    jsonWF mC5 = true ∧ decodedMessages ⟨send_message mC5, []⟩ = [mC5] :=
  ⟨by decide, (send_read_roundtrip mC5 (by decide)).1⟩

/-- Claim C7's well-formed follow-up message. -/
def mC7 : Json := .obj [(pys "jsonrpc", .str (pys "2.0")), (pys "id", .int 2)]

/-- Claim C7's malformed frame: a header block with no Content-Length. -/
def hsC7 : List (PyStr × PyStr) := [(pys "X-Key", pys "abc")]

/-- C7: a frame whose header block lacks a Content-Length header is skipped
without raising and without ending the reader loop: the loop decodes the
following well-formed frame exactly as if the malformed frame were not
there. -/
theorem malformed_frame_skipped (hs : List (PyStr × PyStr)) (m : Json)
    (hgood : hs.all goodHeader = true)
    (hnocl : ∀ p ∈ hs, (p : PyStr × PyStr).1 ≠ pys "Content-Length")
    (hm : jsonWF m = true) :
    decodedMessages ⟨renderHeaders hs ++ '\r' :: '\n' :: send_message m, []⟩ = [m] ∧
      payloadsRead ⟨renderHeaders hs ++ '\r' :: '\n' :: send_message m, []⟩ = [jsonDumps m] := by
  have htl : totalLen ⟨renderHeaders hs ++ '\r' :: '\n' :: send_message m, []⟩ =
      (renderHeaders hs).length + 2 + (send_message m).length := by
    simp [totalLen]
    omega
  have hh : readHeaders ⟨renderHeaders hs ++ '\r' :: '\n' :: send_message m, []⟩ =
      .done (hs.foldl (fun m p => upsert m p.1 p.2) []) ⟨send_message m, []⟩ := by
    rw [readHeaders]
    exact readHeadersLoop_render hs [] _ (send_message m) [] hgood
      (by
        rw [htl]
        have h1 := renderHeaders_length hs
        omega)
  have hlk : lookupA (hs.foldl (fun m p => upsert m p.1 p.2) []) (pys "Content-Length") =
      none :=
    lookupA_foldl_none _ hs [] hnocl rfl
  obtain ⟨f, hf⟩ : ∃ f, totalLen ⟨renderHeaders hs ++ '\r' :: '\n' :: send_message m, []⟩ =
      f + 1 :=
    ⟨totalLen ⟨renderHeaders hs ++ '\r' :: '\n' :: send_message m, []⟩ - 1, by
      rw [htl]
      have h1 := send_message_len_pos m
      omega⟩
  have hrun : readMessagesLoop
      (totalLen ⟨renderHeaders hs ++ '\r' :: '\n' :: send_message m, []⟩ + 1)
      ⟨renderHeaders hs ++ '\r' :: '\n' :: send_message m, []⟩ = ([m], [jsonDumps m]) := by
    rw [hf]
    simp only [readMessagesLoop, hh, hlk]
    exact readMessagesLoop_frame m hm f
  exact ⟨by simp [decodedMessages, read_messages, hrun],
    by simp [payloadsRead, read_messages, hrun]⟩

theorem malformed_frame_skipped_witness :
    hsC7.all goodHeader = true ∧ jsonWF mC7 = true ∧
      decodedMessages ⟨renderHeaders hsC7 ++ '\r' :: '\n' :: send_message mC7, []⟩ = [mC7] :=
  ⟨by decide, by decide,
    (malformed_frame_skipped hsC7 mC7 (by decide) (by decide) (by decide)).1⟩
